import Mathlib

/-!
Shallow embedding of the WKT decoder in src/encoding/wkt/decode.go (package
wkt).  Go strings are modelled as `List Char` (the decoder only inspects ASCII
characters, for which Go byte indices coincide with character positions), the
Go `(value, rest, error)` return triples as `Except` over pairs, and float64
ordinate values as exact rationals.
-/

deriving instance DecidableEq for Except

namespace Wkt

/-- Modelled from the spec: the geometry library's coordinate layouts
(geom.Layout, declared outside src/): planar, +elevation, +measure, both;
NoLayout is the zero value assigned before a layout is resolved. -/
inductive Layout where
  | noLayout
  | XY
  | XYZ
  | XYM
  | XYZM
deriving DecidableEq

/-- Modelled from the spec: ordinates per coordinate for each layout
(geom.Layout.Stride, declared outside src/): XY has 2, XYZ and XYM have 3,
XYZM has 4. -/
def Layout.stride : Layout → Nat
  | .noLayout => 0
  | .XY => 2
  | .XYZ => 3
  | .XYM => 3
  | .XYZM => 4

/-- A coordinate: a sequence of ordinate values (geom.Coord).  Ordinates are
modelled as exact rationals rather than IEEE-754 float64. -/
abbrev Coord := List ℚ

/-- The typed decode errors of decode.go.  The Go code returns errors built
with errors.New carrying a formatted message; each constructor here keeps the
data interpolated into the corresponding message. -/
inductive WktError where
  /-- "Unknown geometry type in WKT: " ++ wkt (findTypeAndLayout). -/
  | unknownType (wkt : List Char)
  /-- "Malformatted braces in WKT string: " ++ s (braceContentAndRest). -/
  | malformedBraces (s : List Char)
  /-- "Expected coordinates with dimension %v. Found: %v" with the layout
  stride and the brace content (coordsFromBraceContent). -/
  | dimensionMismatch (stride : Nat) (found : List Char)
  /-- "Found invalid coordinate value in WKT String: %v" with the offending
  token (coordsFromBraceContent). -/
  | invalidOrdinate (tok : List Char)
  /-- "Cannot create geometry for unsupported type %s" (default arm of the
  dispatch switch in decode). -/
  | unsupportedType (t : List Char)
deriving DecidableEq

/-- Modelled from the spec: the geometry object model (package geom, outside
src/).  Each constructor records what the corresponding NewX/MustSetCoords
calls in decode.go store: the resolved layout and the coordinate structure of
matching depth.  A Point stores at most one coordinate (NewPointEmpty plus an
optional MustSetCoords), and a GeometryCollection an ordered list of members
(NewGeometryCollection plus MustPush in input order). -/
inductive Geom where
  | point (l : Layout) (c : Option Coord)
  | lineString (l : Layout) (cs : List Coord)
  | linearRing (l : Layout) (cs : List Coord)
  | polygon (l : Layout) (rings : List (List Coord))
  | multiPoint (l : Layout) (cs : List Coord)
  | multiLineString (l : Layout) (lines : List (List Coord))
  | multiPolygon (l : Layout) (polys : List (List (List Coord)))
  | collection (gs : List Geom)

/-- Character list of a string literal. -/
def strData (s : String) : List Char := s.data

/-- strings.HasPrefix: s begins with p. -/
def startsWith (s p : List Char) : Bool := s.take p.length == p

/-- strings.HasSuffix: s ends with p. -/
def endsWith (s p : List Char) : Bool := s.drop (s.length - p.length) == p

/-- Keyword constant tPoint of the wkt package (declared outside src/,
modelled from the spec's keyword list). -/
def tPoint : List Char := strData "POINT"

/-- Keyword constant tLineString. -/
def tLineString : List Char := strData "LINESTRING"

/-- Keyword constant tPolygon. -/
def tPolygon : List Char := strData "POLYGON"

/-- Keyword constant tMultiPoint. -/
def tMultiPoint : List Char := strData "MULTIPOINT"

/-- Keyword constant tMultiLineString. -/
def tMultiLineString : List Char := strData "MULTILINESTRING"

/-- Keyword constant tMultiPolygon. -/
def tMultiPolygon : List Char := strData "MULTIPOLYGON"

/-- Keyword constant tGeometryCollection. -/
def tGeometryCollection : List Char := strData "GEOMETRYCOLLECTION"

/-- Layout modifier constant tZ. -/
def tZ : List Char := strData "Z"

/-- Layout modifier constant tM. -/
def tM : List Char := strData "M"

/-- Layout modifier constant tZm. -/
def tZm : List Char := strData "ZM"

/-- Marker constant tEmpty. -/
def tEmpty : List Char := strData "EMPTY"

/-- The seven geometry keywords, in the order findTypeAndLayout tests them. -/
def keywordList : List (List Char) :=
  [tPoint, tLineString, tPolygon, tMultiPoint, tMultiLineString,
   tMultiPolygon, tGeometryCollection]

/-- findTypeAndLayout: resolve the geometry keyword by prefix match in source
order, then the layout modifier directly after the keyword, testing ZM, then
M, then Z; no modifier means XY.  An unmatched keyword fails with the
unknown-type error carrying the whole input. -/
def findTypeAndLayout (wkt : List Char) :
    Except WktError (List Char × Layout) :=
  let typeString : Option (List Char) :=
    if startsWith wkt tPoint then some tPoint
    else if startsWith wkt tLineString then some tLineString
    else if startsWith wkt tPolygon then some tPolygon
    else if startsWith wkt tMultiPoint then some tMultiPoint
    else if startsWith wkt tMultiLineString then some tMultiLineString
    else if startsWith wkt tMultiPolygon then some tMultiPolygon
    else if startsWith wkt tGeometryCollection then some tGeometryCollection
    else none
  match typeString with
  | none => .error (.unknownType wkt)
  | some t =>
    let layout : Layout :=
      if startsWith wkt (t ++ tZm) then .XYZM
      else if startsWith wkt (t ++ tM) then .XYM
      else if startsWith wkt (t ++ tZ) then .XYZ
      else .XY
    .ok (t, layout)

/-- The scan loop of braceContentAndRest: walk the characters keeping the
running index i, the index of the first opening brace (braceOpenIdx, None
while braceOpenCount is 0), and the counts of opening and closing braces
seen so far.  A closing brace that makes the counts equal stops the scan and
yields both indices. -/
def findBraces : List Char → Nat → Option Nat → Nat → Nat →
    Option (Nat × Nat)
  | [], _, _, _, _ => none
  | c :: rest, i, braceOpenIdx, braceOpenCount, braceCloseCount =>
    if c = '(' then
      findBraces rest (i + 1)
        (if braceOpenCount = 0 then some i else braceOpenIdx)
        (braceOpenCount + 1) braceCloseCount
    else if c = ')' then
      if braceCloseCount + 1 = braceOpenCount then
        match braceOpenIdx with
        | some oi => some (oi, i)
        | none => none
      else findBraces rest (i + 1) braceOpenIdx braceOpenCount
        (braceCloseCount + 1)
    else findBraces rest (i + 1) braceOpenIdx braceOpenCount braceCloseCount

/-- braceContentAndRest: the string strictly between the first opening brace
and the closing brace at which the running close count reaches the running
open count, plus the rest of the input starting at that closing brace; the
malformed-braces error carrying the input when the scan finds no such pair. -/
def braceContentAndRest (s : List Char) :
    Except WktError (List Char × List Char) :=
  match findBraces s 0 none 0 0 with
  | none => .error (.malformedBraces s)
  | some (braceOpenIdx, braceCloseIdx) =>
    .ok ((s.drop (braceOpenIdx + 1)).take (braceCloseIdx - (braceOpenIdx + 1)),
      s.drop braceCloseIdx)

/-- braceContentAndRestStartingWithOpeningBrace: braceContentAndRest, then
advance the rest to the next opening brace (strings.Index), or to the empty
string when none exists. -/
def braceContentAndRestStartingWithOpeningBrace (s : List Char) :
    Except WktError (List Char × List Char) :=
  match braceContentAndRest s with
  | .error e => .error e
  | .ok (content, rest) =>
    match rest.findIdx? (· == '(') with
    | some i => .ok (content, rest.drop i)
    | none => .ok (content, [])

/-- unicode.IsLetter, restricted to the ASCII letters the decoder meets. -/
def isLetterChar (c : Char) : Bool := c.isAlpha

/-- typeContentAndRestStartingWithLetter: braceContentAndRest, then re-resolve
the type of the input and rebuild the child text as the type keyword followed
by the parenthesised content; the rest is advanced to the next letter, or to
the empty string when none exists. -/
def typeContentAndRestStartingWithLetter (s : List Char) :
    Except WktError (List Char × List Char) :=
  match braceContentAndRest s with
  | .error e => .error e
  | .ok (content, rest) =>
    match findTypeAndLayout s with
    | .error e => .error e
    | .ok (t, _) =>
      let content2 := t ++ '(' :: (content ++ [')'])
      let rest2 :=
        match rest.findIdx? isLetterChar with
        | some i => rest.drop i
        | none => ([] : List Char)
      .ok (content2, rest2)

/-- unicode white space as trimmed by strings.TrimSpace, modelled for the
ASCII space characters plus NEL and NBSP. -/
def isSpaceChar (c : Char) : Bool :=
  c == ' ' || c == '\t' || c == '\n' || c == '\x0b' || c == '\x0c' ||
    c == '\r' || c == Char.ofNat 133 || c == Char.ofNat 160

/-- strings.TrimSpace: drop white space from both ends. -/
def trimSpace (s : List Char) : List Char :=
  ((s.dropWhile isSpaceChar).reverse.dropWhile isSpaceChar).reverse

/-- strings.Split with a one-character separator: always at least one piece,
empty pieces preserved. -/
def splitOnChar (sep : Char) : List Char → List (List Char)
  | [] => [[]]
  | c :: r =>
    if c = sep then [] :: splitOnChar sep r
    else
      match splitOnChar sep r with
      | [] => [[c]]
      | h :: t => (c :: h) :: t

/-- Modelled from the spec: strconv.ParseFloat(s, 64) (standard library,
outside src/), as exact decimal parsing into ℚ: an optional sign, a mantissa
of digits with an optional decimal point holding at least one digit, and an
optional e/E exponent with an optional sign and at least one digit.  The
hexadecimal, infinity, NaN and underscore forms are not modelled, and no
rounding to binary float64 is performed. -/
def parseFloat (s : List Char) : Option ℚ :=
  let signAndRest : Int × List Char :=
    match s with
    | '+' :: r => (1, r)
    | '-' :: r => (-1, r)
    | _ => (1, s)
  let sgn := signAndRest.1
  let s1 := signAndRest.2
  let intPart := s1.takeWhile Char.isDigit
  let r1 := s1.dropWhile Char.isDigit
  let fracAndRest : List Char × List Char :=
    match r1 with
    | '.' :: r => (r.takeWhile Char.isDigit, r.dropWhile Char.isDigit)
    | _ => ([], r1)
  let fracPart := fracAndRest.1
  let r2 := fracAndRest.2
  if intPart.length + fracPart.length = 0 then none
  else
    let man : Int :=
      sgn * (digitsToNat intPart * 10 ^ fracPart.length + digitsToNat fracPart)
    match r2 with
    | [] => some (mkRat man (10 ^ fracPart.length))
    | e :: r3 =>
      if e = 'e' ∨ e = 'E' then
        let expSignAndRest : Bool × List Char :=
          match r3 with
          | '+' :: rr => (true, rr)
          | '-' :: rr => (false, rr)
          | _ => (true, r3)
        let expDigits := expSignAndRest.2.takeWhile Char.isDigit
        if expDigits.length = 0 ∨ expSignAndRest.2.dropWhile Char.isDigit ≠ []
        then none
        else if expSignAndRest.1 then
          some (mkRat (man * 10 ^ digitsToNat expDigits)
            (10 ^ fracPart.length))
        else
          some (mkRat man (10 ^ (fracPart.length + digitsToNat expDigits)))
      else none
where
  /-- Decimal digit run to a natural number. -/
  digitsToNat (ds : List Char) : Nat :=
    ds.foldl (fun a c => 10 * a + (c.toNat - 48)) 0

/-- The inner loop of coordsFromBraceContent: parse each ordinate token as a
number, failing with the invalid-ordinate error carrying the first bad
token. -/
def parseOrdinates : List (List Char) → Except WktError (List ℚ)
  | [] => .ok []
  | v :: r =>
    match parseFloat v with
    | none => .error (.invalidOrdinate v)
    | some f =>
      match parseOrdinates r with
      | .error e => .error e
      | .ok fs => .ok (f :: fs)

/-- One iteration of coordsFromBraceContent: trim the coordinate text, split
it on single spaces, require exactly stride many tokens (else the
dimension-mismatch error carrying the stride and the whole brace content s),
then parse the ordinates. -/
def coordFromString (l : Layout) (s coordStr : List Char) :
    Except WktError Coord :=
  let coordElems := splitOnChar ' ' (trimSpace coordStr)
  if coordElems.length ≠ l.stride then
    .error (.dimensionMismatch l.stride s)
  else parseOrdinates coordElems

/-- The outer loop of coordsFromBraceContent over the comma-separated
coordinate texts, in input order, stopping at the first error. -/
def coordsLoop (l : Layout) (s : List Char) :
    List (List Char) → Except WktError (List Coord)
  | [] => .ok []
  | c :: r =>
    match coordFromString l s c with
    | .error e => .error e
    | .ok coord =>
      match coordsLoop l s r with
      | .error e => .error e
      | .ok coords => .ok (coord :: coords)

/-- coordsFromBraceContent: split the brace content on commas and parse each
piece as one coordinate of the layout's stride. -/
def coordsFromBraceContent (s : List Char) (l : Layout) :
    Except WktError (List Coord) :=
  coordsLoop l s (splitOnChar ',' s)

/-! Counting description of the brace scan, used to characterise
braceContentAndRest and to bound the recursion of the collection decoder. -/

/-- Number of opening braces in s. -/
def countOpen (s : List Char) : Nat := s.countP (· == '(')

/-- Number of closing braces in s. -/
def countClose (s : List Char) : Nat := s.countP (· == ')')

/-- Position j holds a closing brace at which the running count of closing
braces catches up with the running count of opening braces: the stop
condition of the braceContentAndRest scan, expressed by counting. -/
def balancedAt (s : List Char) (j : Nat) : Bool :=
  (s[j]? == some ')') &&
    (countClose (s.take (j + 1)) == countOpen (s.take (j + 1)))

/-- Index of the first opening brace of s, if any. -/
def firstOpen : List Char → Option Nat
  | [] => none
  | c :: r => if c = '(' then some 0 else (firstOpen r).map (· + 1)

/-- First position at or after j satisfying balancedAt, probing k steps. -/
def firstBalancedAux (s : List Char) : Nat → Nat → Option Nat
  | 0, _ => none
  | k + 1, j =>
    if balancedAt s j then some j else firstBalancedAux s k (j + 1)

/-- First position of s satisfying balancedAt, if any. -/
def firstBalanced (s : List Char) : Option Nat :=
  firstBalancedAux s s.length 0

theorem countOpen_append (a b : List Char) :
    countOpen (a ++ b) = countOpen a + countOpen b :=
  List.countP_append _ _ _

theorem countClose_append (a b : List Char) :
    countClose (a ++ b) = countClose a + countClose b :=
  List.countP_append _ _ _

theorem countOpen_cons (c : Char) (r : List Char) :
    countOpen (c :: r) = countOpen r + (if c = '(' then 1 else 0) := by
  by_cases hc : c = '(' <;> simp [countOpen, List.countP_cons, hc]

theorem countClose_cons (c : Char) (r : List Char) :
    countClose (c :: r) = countClose r + (if c = ')' then 1 else 0) := by
  by_cases hc : c = ')' <;> simp [countClose, List.countP_cons, hc]

theorem firstOpen_eq_none_iff {p : List Char} :
    firstOpen p = none ↔ countOpen p = 0 := by
  induction p with
  | nil => simp [firstOpen, countOpen]
  | cons c r ih =>
    rw [countOpen_cons]
    by_cases hc : c = '('
    · simp [firstOpen, hc]
    · simp only [firstOpen, if_neg hc, Option.map_eq_none', ih]
      omega

theorem firstOpen_append_of_some {p : List Char} {i : Nat}
    (h : firstOpen p = some i) (q : List Char) :
    firstOpen (p ++ q) = some i := by
  induction p generalizing i with
  | nil => simp [firstOpen] at h
  | cons c r ih =>
    by_cases hc : c = '('
    · simp only [firstOpen, if_pos hc, Option.some.injEq] at h
      subst h
      simp [firstOpen, hc]
    · simp only [firstOpen, if_neg hc, Option.map_eq_some'] at h
      obtain ⟨i', hi', rfl⟩ := h
      have hr := ih hi'
      simp [firstOpen, if_neg hc, List.append_eq, hr]

theorem firstOpen_append_of_none {p : List Char}
    (h : firstOpen p = none) (q : List Char) :
    firstOpen (p ++ q) = (firstOpen q).map (fun x => x + p.length) := by
  induction p with
  | nil => simp
  | cons c r ih =>
    by_cases hc : c = '('
    · simp [firstOpen, if_pos hc] at h
    · have h' : firstOpen r = none := by
        simpa [firstOpen, if_neg hc, Option.map_eq_none'] using h
      have hr := ih h'
      simp only [List.cons_append, firstOpen, if_neg hc, List.append_eq, hr,
        Option.map_map]
      cases hq : firstOpen q with
      | none => simp
      | some v =>
        simp only [Option.map_some', Option.some.injEq, Function.comp,
          List.length_cons]
        omega

theorem firstOpen_spec {s : List Char} {oi : Nat}
    (h : firstOpen s = some oi) :
    oi < s.length ∧ s[oi]? = some '(' ∧
      ∀ k, k < oi → s[k]? ≠ some '(' := by
  induction s generalizing oi with
  | nil => simp [firstOpen] at h
  | cons c r ih =>
    by_cases hc : c = '('
    · simp only [firstOpen, if_pos hc, Option.some.injEq] at h
      subst h
      subst hc
      refine ⟨by simp, by simp, ?_⟩
      intro k hk
      omega
    · simp only [firstOpen, if_neg hc, Option.map_eq_some'] at h
      obtain ⟨i', hi', rfl⟩ := h
      obtain ⟨h1, h2, h3⟩ := ih hi'
      refine ⟨by simpa using h1, by simpa using h2, ?_⟩
      intro k hk
      match k with
      | 0 => simpa using hc
      | k' + 1 =>
        have := h3 k' (by omega)
        simpa using this

theorem balancedAt_of_length_le {s : List Char} {j : Nat}
    (h : s.length ≤ j) : balancedAt s j = false := by
  have hx : s[j]? = none := List.getElem?_eq_none h
  simp [balancedAt, hx]

theorem firstBalancedAux_some {s : List Char} :
    ∀ k j ci, firstBalancedAux s k j = some ci →
      j ≤ ci ∧ ci < j + k ∧ balancedAt s ci = true ∧
        ∀ m, j ≤ m → m < ci → balancedAt s m = false := by
  intro k
  induction k with
  | zero => intro j ci h; simp [firstBalancedAux] at h
  | succ k ih =>
    intro j ci h
    by_cases hb : balancedAt s j
    · simp only [firstBalancedAux, if_pos hb] at h
      cases h
      exact ⟨le_refl _, by omega, hb, fun m hm1 hm2 => by omega⟩
    · simp only [firstBalancedAux, if_neg hb] at h
      obtain ⟨h1, h2, h3, h4⟩ := ih (j + 1) ci h
      refine ⟨by omega, by omega, h3, ?_⟩
      intro m hm1 hm2
      rcases Nat.eq_or_lt_of_le hm1 with rfl | hlt
      · simpa using hb
      · exact h4 m hlt hm2

theorem firstBalancedAux_none {s : List Char} :
    ∀ k j, firstBalancedAux s k j = none →
      ∀ m, j ≤ m → m < j + k → balancedAt s m = false := by
  intro k
  induction k with
  | zero => intro j _ m hm1 hm2; omega
  | succ k ih =>
    intro j h m hm1 hm2
    by_cases hb : balancedAt s j
    · simp [firstBalancedAux, if_pos hb] at h
    · simp only [firstBalancedAux, if_neg hb] at h
      rcases Nat.eq_or_lt_of_le hm1 with rfl | hlt
      · simpa using hb
      · exact ih (j + 1) h m hlt (by omega)

theorem firstBalancedAux_step {s : List Char} {k j : Nat}
    (h : balancedAt s j = false) :
    firstBalancedAux s (k + 1) j = firstBalancedAux s k (j + 1) := by
  simp [firstBalancedAux, h]

theorem firstBalanced_spec {s : List Char} {ci : Nat}
    (h : firstBalanced s = some ci) :
    ci < s.length ∧ s[ci]? = some ')' ∧
      countClose (s.take (ci + 1)) = countOpen (s.take (ci + 1)) ∧
      ∀ m, m < ci → balancedAt s m = false := by
  obtain ⟨_, _, h3, h4⟩ := firstBalancedAux_some s.length 0 ci h
  have hb := h3
  simp only [balancedAt, Bool.and_eq_true, beq_iff_eq] at hb
  have hlen : ci < s.length := by
    by_contra hc
    have hx : s[ci]? = none := List.getElem?_eq_none (by omega)
    rw [hx] at hb
    simp at hb
  exact ⟨hlen, hb.1, hb.2, fun m hm => h4 m (by omega) hm⟩

/-- Intro form: the least balancing position determines firstBalanced. -/
theorem firstBalanced_intro {s : List Char} {ci : Nat}
    (hci : balancedAt s ci = true)
    (hmin : ∀ m, m < ci → balancedAt s m = false) :
    firstBalanced s = some ci := by
  have hlen : ci < s.length := by
    by_contra hc
    rw [balancedAt_of_length_le (by omega)] at hci
    simp at hci
  have key : ∀ k j, j ≤ ci → ci < j + k →
      firstBalancedAux s k j = some ci := by
    intro k
    induction k with
    | zero => intro j h1 h2; omega
    | succ k ih =>
      intro j h1 h2
      rcases Nat.eq_or_lt_of_le h1 with rfl | hlt
      · simp [firstBalancedAux, hci]
      · rw [firstBalancedAux_step (hmin j hlt)]
        exact ih (j + 1) hlt (by omega)
  exact key s.length 0 (by omega) (by omega)

/-- The braceContentAndRest scan, related to the counting description: after
consuming a processed portion p with no balancing position, the loop state is
the first open-brace index and the brace counts of p, and the scan result is
the first balancing position of the whole string paired with its first
open-brace index. -/
theorem findBraces_go :
    ∀ (t p : List Char),
      (∀ j, j < p.length → balancedAt (p ++ t) j = false) →
      findBraces t p.length (firstOpen p) (countOpen p) (countClose p)
        = (firstBalancedAux (p ++ t) t.length p.length).bind fun ci =>
            (firstOpen (p ++ t)).map fun oi => (oi, ci) := by
  intro t
  induction t with
  | nil =>
    intro p _
    simp [findBraces, firstBalancedAux]
  | cons c r ih =>
    intro p hbal
    simp only [List.length_cons]
    have hs : p ++ c :: r = (p ++ [c]) ++ r := by simp
    have hlen' : (p ++ [c]).length = p.length + 1 := by simp
    have hgetp : (p ++ c :: r)[p.length]? = some c := by
      rw [List.getElem?_append_right (le_refl _)]
      simp
    have htake : (p ++ c :: r).take (p.length + 1) = p ++ [c] := by
      rw [List.take_append_eq_append_take]
      rw [List.take_of_length_le (by omega)]
      simp
    have hbal' : (∀ j, j < p.length → balancedAt (p ++ c :: r) j = false) →
        balancedAt (p ++ c :: r) p.length = false →
        ∀ j, j < (p ++ [c]).length → balancedAt ((p ++ [c]) ++ r) j = false := by
      intro h1 h2 j hj
      rw [← hs]
      rcases Nat.lt_or_ge j p.length with hj' | hj'
      · exact h1 j hj'
      · have : j = p.length := by omega
        subst this
        exact h2
    by_cases hc : c = '('
    · subst hc
      have hb0 : balancedAt (p ++ '(' :: r) p.length = false := by
        simp [balancedAt, hgetp]
      have hfo' : firstOpen (p ++ ['(']) =
          if countOpen p = 0 then some p.length else firstOpen p := by
        by_cases h0 : countOpen p = 0
        · rw [if_pos h0, firstOpen_append_of_none (firstOpen_eq_none_iff.mpr h0)]
          simp [firstOpen]
        · rw [if_neg h0]
          have hne : firstOpen p ≠ none := fun hn => h0 (firstOpen_eq_none_iff.mp hn)
          obtain ⟨i, hi⟩ := Option.ne_none_iff_exists'.mp hne
          rw [firstOpen_append_of_some hi, hi]
      have hco' : countOpen (p ++ ['(']) = countOpen p + 1 := by
        rw [countOpen_append]
        rfl
      have hcc' : countClose (p ++ ['(']) = countClose p := by
        rw [countClose_append]
        rfl
      have hrec := ih (p ++ ['(']) (hbal' hbal hb0)
      rw [hlen', hfo', hco', hcc'] at hrec
      have hL : findBraces ('(' :: r) p.length (firstOpen p) (countOpen p)
          (countClose p)
          = findBraces r (p.length + 1)
              (if countOpen p = 0 then some p.length else firstOpen p)
              (countOpen p + 1) (countClose p) := by
        simp [findBraces]
      rw [hL, hrec, hs]
      have : firstBalancedAux ((p ++ ['(']) ++ r) (r.length + 1) p.length
          = firstBalancedAux ((p ++ ['(']) ++ r) r.length (p.length + 1) :=
        firstBalancedAux_step (by rw [← hs]; exact hb0)
      rw [this]
    · by_cases hcr : c = ')'
      · subst hcr
        by_cases heq : countClose p + 1 = countOpen p
        · -- the scan stops here: position p.length balances
          have hcnt : countClose ((p ++ ')' :: r).take (p.length + 1))
              = countOpen ((p ++ ')' :: r).take (p.length + 1)) := by
            rw [htake, countClose_append, countOpen_append]
            have h1 : countClose [')'] = 1 := rfl
            have h2 : countOpen [')'] = 0 := rfl
            omega
          have hb1 : balancedAt (p ++ ')' :: r) p.length = true := by
            simp [balancedAt, hgetp, hcnt]
          have hopos : countOpen p ≠ 0 := by omega
          have hne : firstOpen p ≠ none :=
            fun hn => hopos (firstOpen_eq_none_iff.mp hn)
          obtain ⟨oi, hoi⟩ := Option.ne_none_iff_exists'.mp hne
          have hL : findBraces (')' :: r) p.length (firstOpen p) (countOpen p)
              (countClose p) = some (oi, p.length) := by
            simp [findBraces, heq, hoi]
          have hR : firstBalancedAux (p ++ ')' :: r) (r.length + 1) p.length
              = some p.length := by
            simp [firstBalancedAux, hb1]
          rw [hL, hR]
          rw [firstOpen_append_of_some hoi]
          rfl
        · -- counts do not yet balance: keep scanning
          have hb0 : balancedAt (p ++ ')' :: r) p.length = false := by
            have hcnt : countClose ((p ++ ')' :: r).take (p.length + 1))
                ≠ countOpen ((p ++ ')' :: r).take (p.length + 1)) := by
              rw [htake, countClose_append, countOpen_append]
              have h1 : countClose [')'] = 1 := rfl
              have h2 : countOpen [')'] = 0 := rfl
              omega
            simp [balancedAt, hcnt]
          have hfo' : firstOpen (p ++ [')']) = firstOpen p := by
            cases hfo : firstOpen p with
            | none =>
              rw [firstOpen_append_of_none hfo]
              rfl
            | some i => rw [firstOpen_append_of_some hfo]
          have hco' : countOpen (p ++ [')']) = countOpen p := by
            rw [countOpen_append]
            rfl
          have hcc' : countClose (p ++ [')']) = countClose p + 1 := by
            rw [countClose_append]
            rfl
          have hrec := ih (p ++ [')']) (hbal' hbal hb0)
          rw [hlen', hfo', hco', hcc'] at hrec
          have hL : findBraces (')' :: r) p.length (firstOpen p) (countOpen p)
              (countClose p)
              = findBraces r (p.length + 1) (firstOpen p) (countOpen p)
                  (countClose p + 1) := by
            simp [findBraces, heq]
          rw [hL, hrec, hs]
          have : firstBalancedAux ((p ++ [')']) ++ r) (r.length + 1) p.length
              = firstBalancedAux ((p ++ [')']) ++ r) r.length (p.length + 1) :=
            firstBalancedAux_step (by rw [← hs]; exact hb0)
          rw [this]
      · -- any other character: state unchanged
        have hb0 : balancedAt (p ++ c :: r) p.length = false := by
          have : (some c == some ')') = false := by
            simp [hcr]
          simp [balancedAt, hgetp, this]
        have hfo' : firstOpen (p ++ [c]) = firstOpen p := by
          cases hfo : firstOpen p with
          | none =>
            rw [firstOpen_append_of_none hfo]
            simp [firstOpen, hc]
          | some i => rw [firstOpen_append_of_some hfo]
        have hco' : countOpen (p ++ [c]) = countOpen p := by
          rw [countOpen_append]
          have : countOpen [c] = 0 := by
            simp [countOpen, List.countP_cons, hc]
          omega
        have hcc' : countClose (p ++ [c]) = countClose p := by
          rw [countClose_append]
          have : countClose [c] = 0 := by
            simp [countClose, List.countP_cons, hcr]
          omega
        have hrec := ih (p ++ [c]) (hbal' hbal hb0)
        rw [hlen', hfo', hco', hcc'] at hrec
        have hL : findBraces (c :: r) p.length (firstOpen p) (countOpen p)
            (countClose p)
            = findBraces r (p.length + 1) (firstOpen p) (countOpen p)
                (countClose p) := by
          simp [findBraces, hc, hcr]
        rw [hL, hrec, hs]
        have : firstBalancedAux ((p ++ [c]) ++ r) (r.length + 1) p.length
            = firstBalancedAux ((p ++ [c]) ++ r) r.length (p.length + 1) :=
          firstBalancedAux_step (by rw [← hs]; exact hb0)
        rw [this]

/-- The scan of braceContentAndRest computes the first balancing position and
the first open-brace index. -/
theorem findBraces_eq (s : List Char) :
    findBraces s 0 none 0 0
      = (firstBalanced s).bind fun ci =>
          (firstOpen s).map fun oi => (oi, ci) := by
  have h := findBraces_go s [] (by simp)
  simpa [firstOpen, countOpen, countClose, firstBalanced] using h

/-- braceContentAndRest, described by the first balancing position and the
first open-brace index. -/
theorem braceContentAndRest_eq (s : List Char) :
    braceContentAndRest s =
      match firstBalanced s, firstOpen s with
      | some ci, some oi =>
          .ok ((s.drop (oi + 1)).take (ci - (oi + 1)), s.drop ci)
      | _, _ => .error (.malformedBraces s) := by
  unfold braceContentAndRest
  rw [findBraces_eq]
  cases firstBalanced s <;> cases firstOpen s <;> simp

/-- A successful braceContentAndRest yields the content strictly between the
first opening brace and the first balancing closing brace, and the rest
starting at the closing brace. -/
theorem braceContentAndRest_ok {s c r : List Char}
    (h : braceContentAndRest s = .ok (c, r)) :
    ∃ oi ci, firstOpen s = some oi ∧ firstBalanced s = some ci ∧
      oi < ci ∧ ci < s.length ∧ s[oi]? = some '(' ∧ s[ci]? = some ')' ∧
      (∀ k, k < oi → s[k]? ≠ some '(') ∧
      c = (s.drop (oi + 1)).take (ci - (oi + 1)) ∧ r = s.drop ci := by
  rw [braceContentAndRest_eq] at h
  cases hfb : firstBalanced s with
  | none =>
    rw [hfb] at h
    simp at h
  | some ci =>
    cases hfo : firstOpen s with
    | none =>
      rw [hfb, hfo] at h
      simp at h
    | some oi =>
      rw [hfb, hfo] at h
      simp only [Except.ok.injEq, Prod.mk.injEq] at h
      obtain ⟨hc, hr⟩ := h
      obtain ⟨hci1, hci2, hci3, _⟩ := firstBalanced_spec hfb
      obtain ⟨hoi1, hoi2, hoi3⟩ := firstOpen_spec hfo
      have hmemc : ')' ∈ s.take (ci + 1) := by
        apply List.getElem?_mem (n := ci)
        rw [List.getElem?_take]
        simp [hci2]
      have hccpos : 0 < countClose (s.take (ci + 1)) :=
        List.countP_pos_iff.mpr ⟨')', hmemc, by simp⟩
      have hopos : 0 < countOpen (s.take (ci + 1)) := by omega
      obtain ⟨a, ha, hpa⟩ := List.countP_pos_iff.mp hopos
      have ha' : a = '(' := by simpa using hpa
      subst ha'
      obtain ⟨k, hk, hkeq⟩ := List.getElem_of_mem ha
      have hklen : k < ci + 1 := by
        have := hk
        rw [List.length_take] at this
        omega
      have hsk : s[k]? = some '(' := by
        have hks : k < s.length := by
          have := hk
          rw [List.length_take] at this
          omega
        rw [List.getElem?_eq_getElem hks]
        have : s[k] = '(' := by
          rw [← List.getElem_take s (j := ci + 1) (h := hk)]
          exact hkeq
        rw [this]
      have hoik : oi ≤ k := by
        by_contra hlt
        exact hoi3 k (by omega) hsk
      have hne : oi ≠ ci := by
        intro heq
        rw [heq, hci2] at hoi2
        simp at hoi2
      exact ⟨oi, ci, rfl, rfl, by omega, hci1, hoi2, hci2, hoi3,
        hc.symm, hr.symm⟩

/-- Size facts about a successful braceContentAndRest. -/
theorem braceContentAndRest_ok_bounds {s c r : List Char}
    (h : braceContentAndRest s = .ok (c, r)) :
    c.length + 2 ≤ s.length ∧ 1 ≤ r.length ∧ r.length < s.length := by
  obtain ⟨oi, ci, _, _, holt, hcilen, _, _, _, hc, hr⟩ :=
    braceContentAndRest_ok h
  subst hc
  subst hr
  rw [List.length_take, List.length_drop, List.length_drop]
  omega

/-- The content of a successful braceContentAndRest additionally leaves room
for any brace-free known starting text of the input. -/
theorem braceContentAndRest_ok_startsWith {s c r kw : List Char}
    (h : braceContentAndRest s = .ok (c, r))
    (hkw : startsWith s kw = true) (hnop : countOpen kw = 0) :
    c.length + kw.length + 2 ≤ s.length := by
  obtain ⟨oi, ci, hfo, hfb, holt, hcilen, hopen, _, hmin, hc, _⟩ :=
    braceContentAndRest_ok h
  have hpre : s.take kw.length = kw := by
    simpa [startsWith] using hkw
  have hoi_ge : kw.length ≤ oi := by
    by_contra hlt
    push_neg at hlt
    have hkoi : kw[oi]? = s[oi]? := by
      conv_lhs => rw [← hpre]
      rw [List.getElem?_take]
      simp [hlt]
    have hin : '(' ∈ kw := by
      apply List.getElem?_mem (n := oi)
      rw [hkoi]
      exact hopen
    have : 0 < countOpen kw := List.countP_pos_iff.mpr ⟨'(', hin, by simp⟩
    omega
  have hlenc : c.length ≤ ci - (oi + 1) := by
    subst hc
    rw [List.length_take]
    exact min_le_left _ _
  omega

/-- A resolved type is one of the seven keywords, is a starting text of the
input, and is at most 18 characters long. -/
theorem findTypeAndLayout_ok {s t : List Char} {l : Layout}
    (h : findTypeAndLayout s = .ok (t, l)) :
    t ∈ keywordList ∧ startsWith s t = true ∧ t.length ≤ 18 := by
  simp only [findTypeAndLayout] at h
  split_ifs at h <;>
    simp only [Except.ok.injEq, Prod.mk.injEq, reduceCtorEq] at h <;>
    [skip; skip; skip; skip; skip; skip; skip] <;>
    (obtain ⟨rfl, -⟩ := h) <;>
    refine ⟨by simp [keywordList], by assumption, by decide⟩

/-- The resolved layout tests the modifiers directly after the keyword in the
order ZM, M, Z, resolving to XY when none matches. -/
theorem findTypeAndLayout_ok_layout {s t : List Char} {l : Layout}
    (h : findTypeAndLayout s = .ok (t, l)) :
    l = (if startsWith s (t ++ tZm) then Layout.XYZM
         else if startsWith s (t ++ tM) then Layout.XYM
         else if startsWith s (t ++ tZ) then Layout.XYZ
         else Layout.XY) := by
  simp only [findTypeAndLayout] at h
  split_ifs at h <;>
    simp only [Except.ok.injEq, Prod.mk.injEq, reduceCtorEq] at h <;>
    obtain ⟨rfl, rfl⟩ := h <;> rfl

/-- When no keyword matches, findTypeAndLayout fails with the unknown-type
error carrying the whole input. -/
theorem findTypeAndLayout_none {s : List Char}
    (h : ∀ k ∈ keywordList, startsWith s k = false) :
    findTypeAndLayout s = .error (.unknownType s) := by
  have h1 := h tPoint (by simp [keywordList])
  have h2 := h tLineString (by simp [keywordList])
  have h3 := h tPolygon (by simp [keywordList])
  have h4 := h tMultiPoint (by simp [keywordList])
  have h5 := h tMultiLineString (by simp [keywordList])
  have h6 := h tMultiPolygon (by simp [keywordList])
  have h7 := h tGeometryCollection (by simp [keywordList])
  simp [findTypeAndLayout, h1, h2, h3, h4, h5, h6, h7]

/-- An error of findTypeAndLayout is the unknown-type error on the input. -/
theorem findTypeAndLayout_err {s : List Char} {e : WktError}
    (h : findTypeAndLayout s = .error e) : e = .unknownType s := by
  simp only [findTypeAndLayout] at h
  split_ifs at h <;> simp_all

/-- Size facts about a successful advance-to-opening-brace variant. -/
theorem braceContentAndRestStartingWithOpeningBrace_ok_bounds
    {s c rest : List Char}
    (h : braceContentAndRestStartingWithOpeningBrace s = .ok (c, rest)) :
    c.length + 2 ≤ s.length ∧ rest.length < s.length := by
  unfold braceContentAndRestStartingWithOpeningBrace at h
  cases hb : braceContentAndRest s with
  | error e => rw [hb] at h; simp at h
  | ok cr =>
    obtain ⟨c0, r0⟩ := cr
    rw [hb] at h
    simp only [] at h
    obtain ⟨hc1, hr1, hr2⟩ := braceContentAndRest_ok_bounds hb
    cases hidx : r0.findIdx? (· == '(') with
    | none =>
      rw [hidx] at h
      simp only [Except.ok.injEq, Prod.mk.injEq] at h
      obtain ⟨rfl, rfl⟩ := h
      refine ⟨hc1, by simp; omega⟩
    | some i =>
      rw [hidx] at h
      simp only [Except.ok.injEq, Prod.mk.injEq] at h
      obtain ⟨rfl, rfl⟩ := h
      refine ⟨hc1, ?_⟩
      have : (r0.drop i).length ≤ r0.length := by
        rw [List.length_drop]
        omega
      omega

/-- The advance-to-opening-brace variant only fails with the error of the
underlying brace scan. -/
theorem braceContentAndRestStartingWithOpeningBrace_err
    {s : List Char} {e : WktError}
    (h : braceContentAndRestStartingWithOpeningBrace s = .error e) :
    e = .malformedBraces s := by
  unfold braceContentAndRestStartingWithOpeningBrace at h
  cases hb : braceContentAndRest s with
  | error e0 =>
    rw [hb] at h
    rw [braceContentAndRest_eq] at hb
    cases hfb : firstBalanced s <;> cases hfo : firstOpen s <;>
      rw [hfb, hfo] at hb <;> simp_all
  | ok cr =>
    obtain ⟨c0, r0⟩ := cr
    rw [hb] at h
    simp only [] at h
    cases hidx : r0.findIdx? (· == '(') <;> rw [hidx] at h <;> simp at h

/-- Size facts about a successful extract-typed-child: the rebuilt child text
adds back at most an 18-character keyword, and the rest shrinks. -/
theorem typeContentAndRestStartingWithLetter_ok_bounds
    {s g rest : List Char}
    (h : typeContentAndRestStartingWithLetter s = .ok (g, rest)) :
    g.length ≤ s.length + 18 ∧ rest.length < s.length ∧ 2 ≤ s.length := by
  unfold typeContentAndRestStartingWithLetter at h
  cases hb : braceContentAndRest s with
  | error e => rw [hb] at h; simp at h
  | ok cr =>
    obtain ⟨c0, r0⟩ := cr
    rw [hb] at h
    simp only [] at h
    obtain ⟨hc1, hr1, hr2⟩ := braceContentAndRest_ok_bounds hb
    cases hf : findTypeAndLayout s with
    | error e => rw [hf] at h; simp at h
    | ok tl =>
      obtain ⟨t, l0⟩ := tl
      rw [hf] at h
      simp only [Except.ok.injEq, Prod.mk.injEq] at h
      obtain ⟨rfl, rfl⟩ := h
      obtain ⟨-, -, htlen⟩ := findTypeAndLayout_ok hf
      have hg : (t ++ '(' :: (c0 ++ [')'])).length = t.length + c0.length + 2 := by
        simp
        omega
      refine ⟨by omega, ?_, by omega⟩
      cases hidx : r0.findIdx? isLetterChar with
      | none => simp; omega
      | some i =>
        have : (r0.drop i).length ≤ r0.length := by
          rw [List.length_drop]
          omega
        simp only
        omega

/-- An extract-typed-child error is a malformed-braces or unknown-type
error. -/
theorem typeContentAndRestStartingWithLetter_err
    {s : List Char} {e : WktError}
    (h : typeContentAndRestStartingWithLetter s = .error e) :
    e = .malformedBraces s ∨ e = .unknownType s := by
  unfold typeContentAndRestStartingWithLetter at h
  cases hb : braceContentAndRest s with
  | error e0 =>
    rw [hb] at h
    rw [braceContentAndRest_eq] at hb
    cases hfb : firstBalanced s <;> cases hfo : firstOpen s <;>
      rw [hfb, hfo] at hb <;> simp_all
  | ok cr =>
    obtain ⟨c0, r0⟩ := cr
    rw [hb] at h
    simp only [] at h
    cases hf : findTypeAndLayout s with
    | error e0 =>
      rw [hf] at h
      simp only [Except.error.injEq] at h
      subst h
      exact Or.inr (findTypeAndLayout_err hf)
    | ok tl => rw [hf] at h; simp at h

/-- parseOrdinates keeps the token count. -/
theorem parseOrdinates_ok_length {elems : List (List Char)} {fs : List ℚ}
    (h : parseOrdinates elems = .ok fs) : fs.length = elems.length := by
  induction elems generalizing fs with
  | nil => simp only [parseOrdinates, Except.ok.injEq] at h; subst h; rfl
  | cons v r ih =>
    simp only [parseOrdinates] at h
    cases hp : parseFloat v with
    | none => rw [hp] at h; simp at h
    | some f =>
      rw [hp] at h
      cases hr : parseOrdinates r with
      | error e => rw [hr] at h; simp at h
      | ok fs0 =>
        rw [hr] at h
        simp only [Except.ok.injEq] at h
        subst h
        simp [ih hr]

/-- A parseOrdinates failure is the invalid-ordinate error on a token that
does not parse. -/
theorem parseOrdinates_err {elems : List (List Char)} {e : WktError}
    (h : parseOrdinates elems = .error e) :
    ∃ tok ∈ elems, parseFloat tok = none ∧ e = .invalidOrdinate tok := by
  induction elems with
  | nil => simp [parseOrdinates] at h
  | cons v r ih =>
    simp only [parseOrdinates] at h
    cases hp : parseFloat v with
    | none =>
      rw [hp] at h
      simp only [Except.error.injEq] at h
      exact ⟨v, by simp, hp, h.symm⟩
    | some f =>
      rw [hp] at h
      cases hr : parseOrdinates r with
      | error e0 =>
        rw [hr] at h
        simp only [Except.error.injEq] at h
        subst h
        obtain ⟨tok, htok, hn, he⟩ := ih hr
        exact ⟨tok, by simp [htok], hn, he⟩
      | ok fs0 => rw [hr] at h; simp at h

/-- Forward direction: parseOrdinates fails with the invalid-ordinate error
on the first token that does not parse as a number. -/
theorem parseOrdinates_err_first {pre post : List (List Char)}
    {tok : List Char}
    (hpre : ∀ t ∈ pre, parseFloat t ≠ none)
    (htok : parseFloat tok = none) :
    parseOrdinates (pre ++ tok :: post) = .error (.invalidOrdinate tok) := by
  induction pre with
  | nil => simp only [List.nil_append, parseOrdinates, htok]
  | cons v r ih =>
    have hv : parseFloat v ≠ none := hpre v (by simp)
    cases hp : parseFloat v with
    | none => exact absurd hp hv
    | some f =>
      have ihr := ih (fun t ht => hpre t (by simp [ht]))
      simp only [List.cons_append, parseOrdinates, hp, List.append_eq, ihr]

/-- Forward direction: a coordinate text whose token count matches the
stride but holding an unparseable token fails with the invalid-ordinate
error carrying the first such token. -/
theorem coordFromString_err_invalidOrdinate {l : Layout}
    {s coordStr tok : List Char} {pre post : List (List Char)}
    (hsplit : splitOnChar ' ' (trimSpace coordStr) = pre ++ tok :: post)
    (hlen : (pre ++ tok :: post).length = l.stride)
    (hpre : ∀ t ∈ pre, parseFloat t ≠ none)
    (htok : parseFloat tok = none) :
    coordFromString l s coordStr = .error (.invalidOrdinate tok) := by
  simp only [coordFromString, hsplit]
  rw [if_neg (by simp [hlen])]
  exact parseOrdinates_err_first hpre htok

/-- A parsed coordinate has exactly stride many ordinates. -/
theorem coordFromString_ok_length {l : Layout} {s cs : List Char}
    {coord : Coord} (h : coordFromString l s cs = .ok coord) :
    coord.length = l.stride := by
  simp only [coordFromString] at h
  split_ifs at h with hn
  rw [parseOrdinates_ok_length h]
  omega

/-- Every coordinate produced by the coordsFromBraceContent loop has exactly
stride many ordinates. -/
theorem coordsLoop_ok_stride {l : Layout} {s : List Char}
    {pieces : List (List Char)} {coords : List Coord}
    (h : coordsLoop l s pieces = .ok coords) :
    ∀ c ∈ coords, c.length = l.stride := by
  induction pieces generalizing coords with
  | nil =>
    simp only [coordsLoop, Except.ok.injEq] at h
    subst h
    simp
  | cons p r ih =>
    simp only [coordsLoop] at h
    cases hp : coordFromString l s p with
    | error e => rw [hp] at h; simp at h
    | ok coord =>
      rw [hp] at h
      cases hr : coordsLoop l s r with
      | error e => rw [hr] at h; simp at h
      | ok coords0 =>
        rw [hr] at h
        simp only [Except.ok.injEq] at h
        subst h
        intro c hc
        rcases List.mem_cons.mp hc with rfl | hmem
        · exact coordFromString_ok_length hp
        · exact ih hr c hmem

/-- A coordsFromBraceContent loop failure comes from one of the pieces. -/
theorem coordsLoop_err {l : Layout} {s : List Char}
    {pieces : List (List Char)} {e : WktError}
    (h : coordsLoop l s pieces = .error e) :
    ∃ c ∈ pieces, coordFromString l s c = .error e := by
  induction pieces with
  | nil => simp [coordsLoop] at h
  | cons p r ih =>
    simp only [coordsLoop] at h
    cases hp : coordFromString l s p with
    | error e0 =>
      rw [hp] at h
      simp only [Except.error.injEq] at h
      subst h
      exact ⟨p, by simp, hp⟩
    | ok coord =>
      rw [hp] at h
      cases hr : coordsLoop l s r with
      | error e0 =>
        rw [hr] at h
        simp only [Except.error.injEq] at h
        subst h
        obtain ⟨c, hc, he⟩ := ih hr
        exact ⟨c, by simp [hc], he⟩
      | ok coords0 => rw [hr] at h; simp at h

/-- A coordFromString failure is a dimension mismatch on the brace content or
an invalid ordinate on an offending token. -/
theorem coordFromString_err {l : Layout} {s cs : List Char} {e : WktError}
    (h : coordFromString l s cs = .error e) :
    e = .dimensionMismatch l.stride s ∨
      ∃ tok ∈ splitOnChar ' ' (trimSpace cs),
        parseFloat tok = none ∧ e = .invalidOrdinate tok := by
  simp only [coordFromString] at h
  split_ifs at h with hn
  · simp only [Except.error.injEq] at h
    exact Or.inl h.symm
  · exact Or.inr (parseOrdinates_err h)

/-- Modelled from the spec: geom.Coord.Equal under a layout (outside src/):
exact ordinate-wise equality of the first stride ordinates. -/
def coordEqual (l : Layout) (a b : Coord) : Bool :=
  a.take l.stride == b.take l.stride

/-- readCoordsDim1: an EMPTY suffix yields no coordinates; otherwise match
braces with advance-to-opening-brace and parse the content as a coordinate
list. -/
def readCoordsDim1 (l : Layout) (wkt : List Char) :
    Except WktError (List Coord × List Char) :=
  if endsWith wkt tEmpty then .ok ([], [])
  else
    match braceContentAndRestStartingWithOpeningBrace wkt with
    | .error e => .error e
    | .ok (braceContent, rest) =>
      match coordsFromBraceContent braceContent l with
      | .error e => .error e
      | .ok coords => .ok (coords, rest)

/-- The rest after readCoordsDim1 is empty or strictly shorter than the
input. -/
theorem readCoordsDim1_ok_rest {l : Layout} {w coords rest : _}
    (h : readCoordsDim1 l w = .ok (coords, rest)) :
    rest = [] ∨ rest.length < w.length := by
  unfold readCoordsDim1 at h
  split_ifs at h with he
  · simp only [Except.ok.injEq, Prod.mk.injEq] at h
    exact Or.inl h.2.symm
  · cases hb : braceContentAndRestStartingWithOpeningBrace w with
    | error e => rw [hb] at h; simp at h
    | ok cr =>
      obtain ⟨c0, r0⟩ := cr
      rw [hb] at h
      simp only [] at h
      obtain ⟨-, hr⟩ := braceContentAndRestStartingWithOpeningBrace_ok_bounds hb
      cases hc : coordsFromBraceContent c0 l with
      | error e => rw [hc] at h; simp at h
      | ok coords0 =>
        rw [hc] at h
        simp only [Except.ok.injEq, Prod.mk.injEq] at h
        obtain ⟨rfl, rfl⟩ := h
        exact Or.inr hr

/-- The sibling loop of readCoordsDim2: read one Dim1 group, stop when its
rest is empty, and otherwise continue on the rest. -/
def dim2Loop (l : Layout) (contentDim2 : List Char) :
    Except WktError (List (List Coord)) :=
  match h1 : readCoordsDim1 l contentDim2 with
  | .error e => .error e
  | .ok (coordsDim1, restDim1) =>
    if h2 : restDim1 = [] then .ok [coordsDim1]
    else
      match dim2Loop l restDim1 with
      | .error e => .error e
      | .ok tail => .ok (coordsDim1 :: tail)
termination_by contentDim2.length
decreasing_by
  rcases readCoordsDim1_ok_rest h1 with h | h
  · exact absurd h h2
  · exact h

/-- readCoordsDim2: an EMPTY suffix yields no groups; otherwise match the
outer braces and run the Dim1 sibling loop on the content. -/
def readCoordsDim2 (l : Layout) (wkt : List Char) :
    Except WktError (List (List Coord) × List Char) :=
  if endsWith wkt tEmpty then .ok ([], [])
  else
    match braceContentAndRestStartingWithOpeningBrace wkt with
    | .error e => .error e
    | .ok (contentDim2, restDim2) =>
      match dim2Loop l contentDim2 with
      | .error e => .error e
      | .ok coordsDim2 => .ok (coordsDim2, restDim2)

/-- The rest after readCoordsDim2 is empty or strictly shorter than the
input. -/
theorem readCoordsDim2_ok_rest {l : Layout} {w coords rest : _}
    (h : readCoordsDim2 l w = .ok (coords, rest)) :
    rest = [] ∨ rest.length < w.length := by
  unfold readCoordsDim2 at h
  split_ifs at h with he
  · simp only [Except.ok.injEq, Prod.mk.injEq] at h
    exact Or.inl h.2.symm
  · cases hb : braceContentAndRestStartingWithOpeningBrace w with
    | error e => rw [hb] at h; simp at h
    | ok cr =>
      obtain ⟨c0, r0⟩ := cr
      rw [hb] at h
      simp only [] at h
      obtain ⟨-, hr⟩ := braceContentAndRestStartingWithOpeningBrace_ok_bounds hb
      cases hc : dim2Loop l c0 with
      | error e => rw [hc] at h; simp at h
      | ok coords0 =>
        rw [hc] at h
        simp only [Except.ok.injEq, Prod.mk.injEq] at h
        obtain ⟨rfl, rfl⟩ := h
        exact Or.inr hr

/-- The sibling loop of readCoordsDim3 over Dim2 groups. -/
def dim3Loop (l : Layout) (contentDim3 : List Char) :
    Except WktError (List (List (List Coord))) :=
  match h1 : readCoordsDim2 l contentDim3 with
  | .error e => .error e
  | .ok (coordsDim2, restDim2) =>
    if h2 : restDim2 = [] then .ok [coordsDim2]
    else
      match dim3Loop l restDim2 with
      | .error e => .error e
      | .ok tail => .ok (coordsDim2 :: tail)
termination_by contentDim3.length
decreasing_by
  rcases readCoordsDim2_ok_rest h1 with h | h
  · exact absurd h h2
  · exact h

/-- readCoordsDim3: an EMPTY suffix yields no groups; otherwise match the
outer braces and run the Dim2 sibling loop on the content. -/
def readCoordsDim3 (l : Layout) (wkt : List Char) :
    Except WktError (List (List (List Coord)) × List Char) :=
  if endsWith wkt tEmpty then .ok ([], [])
  else
    match braceContentAndRestStartingWithOpeningBrace wkt with
    | .error e => .error e
    | .ok (contentDim3, restDim3) =>
      match dim3Loop l contentDim3 with
      | .error e => .error e
      | .ok coordsDim3 => .ok (coordsDim3, restDim3)

mutual

/-- decode: resolve the type and layout, then dispatch per geometry type.
The Point arm stores the first coordinate when one is present
(NewPointEmpty plus conditional MustSetCoords); the LineString arm
reclassifies a coordinate list whose first and last coordinate are equal as
a LinearRing; the Polygon, MultiPoint, MultiLineString and MultiPolygon arms
store the read coordinate structure (the Go conditional MustSetCoords on a
fresh empty instance stores exactly the read coords, which are empty in the
EMPTY case); GeometryCollection recurses; the default arm is the
unsupported-type error. -/
def decode (wkt : List Char) : Except WktError Geom :=
  match hf : findTypeAndLayout wkt with
  | .error e => .error e
  | .ok (t, l) =>
    if t = tPoint then
      match readCoordsDim1 l wkt with
      | .error e => .error e
      | .ok (coords, _) =>
        match coords with
        | [] => .ok (.point l none)
        | c :: _ => .ok (.point l (some c))
    else if t = tLineString then
      match readCoordsDim1 l wkt with
      | .error e => .error e
      | .ok (coords, _) =>
        match coords with
        | [] => .ok (.lineString l [])
        | c :: cs =>
          if coordEqual l c ((c :: cs).getLast (List.cons_ne_nil c cs)) then
            .ok (.linearRing l (c :: cs))
          else .ok (.lineString l (c :: cs))
    else if t = tPolygon then
      match readCoordsDim2 l wkt with
      | .error e => .error e
      | .ok (coords, _) => .ok (.polygon l coords)
    else if t = tMultiPoint then
      match readCoordsDim1 l wkt with
      | .error e => .error e
      | .ok (coords, _) => .ok (.multiPoint l coords)
    else if t = tMultiLineString then
      match readCoordsDim2 l wkt with
      | .error e => .error e
      | .ok (coords, _) => .ok (.multiLineString l coords)
    else if t = tMultiPolygon then
      match readCoordsDim3 l wkt with
      | .error e => .error e
      | .ok (coords, _) => .ok (.multiPolygon l coords)
    else if hgc : t = tGeometryCollection then
      createGeomCollectionForWkt wkt
        (by
          have hsw := (findTypeAndLayout_ok hf).2.1
          rw [hgc] at hsw
          exact hsw)
    else .error (.unsupportedType t)
termination_by (wkt.length, 1)
decreasing_by
  exact Prod.Lex.right _ (by omega)

/-- createGeomCollectionForWkt: an EMPTY suffix yields the empty collection;
otherwise match the outer braces and run the child loop on the content.  The
hypothesis records that the caller dispatched on the GEOMETRYCOLLECTION
keyword, which bounds the recursion. -/
def createGeomCollectionForWkt (wkt : List Char)
    (hw : startsWith wkt tGeometryCollection = true) :
    Except WktError Geom :=
  if endsWith wkt tEmpty then .ok (.collection [])
  else
    match hb : braceContentAndRest wkt with
    | .error e => .error e
    | .ok (content, _) =>
      match gcLoop content with
      | .error e => .error e
      | .ok gs => .ok (.collection gs)
termination_by (wkt.length, 0)
decreasing_by
  have hbd := braceContentAndRest_ok_startsWith hb hw (by decide)
  exact Prod.Lex.left _ _ (by simpa [tGeometryCollection, strData] using hbd)

/-- The child loop of createGeomCollectionForWkt: extract one typed child
text, decode it recursively, push it, and stop when the rest is empty. -/
def gcLoop (content : List Char) : Except WktError (List Geom) :=
  match ht : typeContentAndRestStartingWithLetter content with
  | .error e => .error e
  | .ok (geomContent, rest) =>
    match decode geomContent with
    | .error e => .error e
    | .ok g =>
      if rest = [] then .ok [g]
      else
        match gcLoop rest with
        | .error e => .error e
        | .ok gs => .ok (g :: gs)
termination_by (content.length + 19, 2)
decreasing_by
  · obtain ⟨h1, h2, h3⟩ := typeContentAndRestStartingWithLetter_ok_bounds ht
    exact Prod.Lex.left _ _ (by omega)
  · obtain ⟨h1, h2, h3⟩ := typeContentAndRestStartingWithLetter_ok_bounds ht
    exact Prod.Lex.left _ _ (by omega)

end

/-- decode propagates a findTypeAndLayout failure. -/
theorem decode_err_findType {w : List Char} {e : WktError}
    (hf : findTypeAndLayout w = .error e) : decode w = .error e := by
  rw [decode.eq_def]
  split
  · rename_i e0 heq
    rw [heq] at hf
    cases hf
    rfl
  · rename_i t0 l0 heq
    rw [heq] at hf
    cases hf

/-- The Point arm of decode. -/
theorem decode_point {w : List Char} {l : Layout}
    (hf : findTypeAndLayout w = .ok (tPoint, l)) :
    decode w =
      match readCoordsDim1 l w with
      | .error e => .error e
      | .ok (coords, _) =>
        match coords with
        | [] => .ok (.point l none)
        | c :: _ => .ok (.point l (some c)) := by
  rw [decode.eq_def]
  split
  · rename_i e0 heq
    rw [heq] at hf
    cases hf
  · rename_i t0 l0 heq
    rw [heq] at hf
    simp only [Except.ok.injEq, Prod.mk.injEq] at hf
    obtain ⟨rfl, rfl⟩ := hf
    rfl

/-- The LineString arm of decode, with its LinearRing reclassification. -/
theorem decode_lineString {w : List Char} {l : Layout}
    (hf : findTypeAndLayout w = .ok (tLineString, l)) :
    decode w =
      match readCoordsDim1 l w with
      | .error e => .error e
      | .ok (coords, _) =>
        match coords with
        | [] => .ok (.lineString l [])
        | c :: cs =>
          if coordEqual l c ((c :: cs).getLast (List.cons_ne_nil c cs)) then
            .ok (.linearRing l (c :: cs))
          else .ok (.lineString l (c :: cs)) := by
  rw [decode.eq_def]
  split
  · rename_i e0 heq
    rw [heq] at hf
    cases hf
  · rename_i t0 l0 heq
    rw [heq] at hf
    simp only [Except.ok.injEq, Prod.mk.injEq] at hf
    obtain ⟨rfl, rfl⟩ := hf
    rfl

/-- The Polygon arm of decode. -/
theorem decode_polygon {w : List Char} {l : Layout}
    (hf : findTypeAndLayout w = .ok (tPolygon, l)) :
    decode w =
      match readCoordsDim2 l w with
      | .error e => .error e
      | .ok (coords, _) => .ok (.polygon l coords) := by
  rw [decode.eq_def]
  split
  · rename_i e0 heq
    rw [heq] at hf
    cases hf
  · rename_i t0 l0 heq
    rw [heq] at hf
    simp only [Except.ok.injEq, Prod.mk.injEq] at hf
    obtain ⟨rfl, rfl⟩ := hf
    rfl

/-- The MultiPoint arm of decode. -/
theorem decode_multiPoint {w : List Char} {l : Layout}
    (hf : findTypeAndLayout w = .ok (tMultiPoint, l)) :
    decode w =
      match readCoordsDim1 l w with
      | .error e => .error e
      | .ok (coords, _) => .ok (.multiPoint l coords) := by
  rw [decode.eq_def]
  split
  · rename_i e0 heq
    rw [heq] at hf
    cases hf
  · rename_i t0 l0 heq
    rw [heq] at hf
    simp only [Except.ok.injEq, Prod.mk.injEq] at hf
    obtain ⟨rfl, rfl⟩ := hf
    rfl

/-- The MultiLineString arm of decode. -/
theorem decode_multiLineString {w : List Char} {l : Layout}
    (hf : findTypeAndLayout w = .ok (tMultiLineString, l)) :
    decode w =
      match readCoordsDim2 l w with
      | .error e => .error e
      | .ok (coords, _) => .ok (.multiLineString l coords) := by
  rw [decode.eq_def]
  split
  · rename_i e0 heq
    rw [heq] at hf
    cases hf
  · rename_i t0 l0 heq
    rw [heq] at hf
    simp only [Except.ok.injEq, Prod.mk.injEq] at hf
    obtain ⟨rfl, rfl⟩ := hf
    rfl

/-- The MultiPolygon arm of decode. -/
theorem decode_multiPolygon {w : List Char} {l : Layout}
    (hf : findTypeAndLayout w = .ok (tMultiPolygon, l)) :
    decode w =
      match readCoordsDim3 l w with
      | .error e => .error e
      | .ok (coords, _) => .ok (.multiPolygon l coords) := by
  rw [decode.eq_def]
  split
  · rename_i e0 heq
    rw [heq] at hf
    cases hf
  · rename_i t0 l0 heq
    rw [heq] at hf
    simp only [Except.ok.injEq, Prod.mk.injEq] at hf
    obtain ⟨rfl, rfl⟩ := hf
    rfl

/-- The GeometryCollection arm of decode delegates to
createGeomCollectionForWkt. -/
theorem decode_gc {w : List Char} {l : Layout}
    (hf : findTypeAndLayout w = .ok (tGeometryCollection, l))
    (hsw : startsWith w tGeometryCollection = true) :
    decode w = createGeomCollectionForWkt w hsw := by
  rw [decode.eq_def]
  split
  · rename_i e0 heq
    rw [heq] at hf
    cases hf
  · rename_i t0 l0 heq
    rw [heq] at hf
    simp only [Except.ok.injEq, Prod.mk.injEq] at hf
    obtain ⟨rfl, rfl⟩ := hf
    rfl

/-- Unfolding of createGeomCollectionForWkt free of the dependent match. -/
theorem createGeomCollectionForWkt_eq {w : List Char}
    (hsw : startsWith w tGeometryCollection = true) :
    createGeomCollectionForWkt w hsw =
      if endsWith w tEmpty then .ok (.collection []) else
        match braceContentAndRest w with
        | .error e => .error e
        | .ok (content, _) =>
          match gcLoop content with
          | .error e => .error e
          | .ok gs => .ok (.collection gs) := by
  rw [createGeomCollectionForWkt.eq_def]
  split_ifs with he
  · rfl
  · cases hb : braceContentAndRest w with
    | error e => rfl
    | ok cr =>
      obtain ⟨content, rest⟩ := cr
      cases hg : gcLoop content <;> rfl

/-- Unfolding of gcLoop free of the dependent match. -/
theorem gcLoop_eq (content : List Char) :
    gcLoop content =
      match typeContentAndRestStartingWithLetter content with
      | .error e => .error e
      | .ok (geomContent, rest) =>
        match decode geomContent with
        | .error e => .error e
        | .ok g =>
          if rest = [] then .ok [g]
          else
            match gcLoop rest with
            | .error e => .error e
            | .ok gs => .ok (g :: gs) := by
  rw [gcLoop.eq_def]
  cases ht : typeContentAndRestStartingWithLetter content with
  | error e => rfl
  | ok gr =>
    obtain ⟨geomContent, rest⟩ := gr
    cases hd : decode geomContent with
    | error e => rfl
    | ok g =>
      by_cases hr : rest = []
      · simp only [if_pos hr]
      · simp only [if_neg hr]

/-- Spec-side notion for the brace-scanner claim: brace-balanced text, by
counts: equally many opening and closing braces, and no prefix closing more
braces than it has opened. -/
def isBalancedText (s : List Char) : Bool :=
  (countOpen s == countClose s) &&
    ((List.range (s.length + 1)).all fun n =>
      decide (countClose (s.take n) ≤ countOpen (s.take n)))

/-- Spec-side notion for the brace-scanner claim: the input contains a
balanced parenthesis pair: an opening brace, a later closing brace, and
brace-balanced text strictly between them. -/
def containsBalancedPair (s : List Char) : Bool :=
  (List.range s.length).any fun i =>
    (List.range s.length).any fun j =>
      decide (i < j) && (s[i]? == some '(') && (s[j]? == some ')') &&
        isBalancedText ((s.drop (i + 1)).take (j - (i + 1)))

/-- C1: for every input using the LINESTRING keyword that decodes to at
least one coordinate, decode returns a LinearRing when the first and last
coordinates are ordinate-wise equal under the active layout (so also for a
single-coordinate line, whose first and last coordinate coincide), and an
open LineString otherwise; a zero-coordinate LINESTRING decodes to an empty
LineString. -/
theorem wkt_c1 (w : List Char) (l : Layout) (coords : List Coord)
    (rest : List Char)
    (hf : findTypeAndLayout w = .ok (tLineString, l))
    (hr : readCoordsDim1 l w = .ok (coords, rest)) :
    (coords = [] → decode w = .ok (.lineString l []))
    ∧ (∀ c0 cN, coords.head? = some c0 → coords.getLast? = some cN →
        (coordEqual l c0 cN = true → decode w = .ok (.linearRing l coords))
        ∧ (coordEqual l c0 cN = false →
            decode w = .ok (.lineString l coords))) := by
  rw [decode_lineString hf, hr]
  simp only []
  constructor
  · intro h
    subst h
    rfl
  · intro c0 cN h0 hN
    cases coords with
    | nil => simp at h0
    | cons c cs =>
      simp only [List.head?_cons, Option.some.injEq] at h0
      subst h0
      rw [List.getLast?_eq_getLast _ (List.cons_ne_nil _ _)] at hN
      simp only [Option.some.injEq] at hN
      simp only []
      rw [hN]
      constructor
      · intro hEq
        rw [hEq]
        rfl
      · intro hEq
        rw [hEq]
        rfl

/-- C1 witness: concrete closed, open and empty LINESTRING inputs. -/
theorem wkt_c1_witness :
    decode (strData "LINESTRING(0 0,1 1,0 0)")
      = .ok (.linearRing .XY [[0, 0], [1, 1], [0, 0]])
    ∧ decode (strData "LINESTRING(0 0,1 1)")
      = .ok (.lineString .XY [[0, 0], [1, 1]])
    ∧ decode (strData "LINESTRING EMPTY") = .ok (.lineString .XY []) := by
  refine ⟨?_, ?_, ?_⟩
  · exact ((wkt_c1 (strData "LINESTRING(0 0,1 1,0 0)") Layout.XY
      [[0, 0], [1, 1], [0, 0]] [] (by decide) (by decide)).2
      [0, 0] [0, 0] (by decide) (by decide)).1 (by decide)
  · exact ((wkt_c1 (strData "LINESTRING(0 0,1 1)") Layout.XY
      [[0, 0], [1, 1]] [] (by decide) (by decide)).2
      [0, 0] [1, 1] (by decide) (by decide)).2 (by decide)
  · exact (wkt_c1 (strData "LINESTRING EMPTY") Layout.XY [] []
      (by decide) (by decide)).1 rfl

/-- C2: decoding a collection whose child carries a layout modifier fails
with a dimension mismatch, because extractTypedChild rebuilds the child text
as keyword(content), dropping the Z of POINTZ, so the child is re-read with
stride 2.  The claim that type, layout and coordinates of such a child are
preserved is therefore violated by the code. -/
theorem wkt_c2 :
    decode (strData "GEOMETRYCOLLECTION(POINTZ(1 2 3))")
      = .error (.dimensionMismatch 2 (strData "1 2 3"))
    ∧ typeContentAndRestStartingWithLetter (strData "POINTZ(1 2 3)")
      = .ok (strData "POINT(1 2 3)", []) := by
  constructor
  · have hp : decode (strData "POINT(1 2 3)")
        = .error (.dimensionMismatch 2 (strData "1 2 3")) := by
      rw [decode.eq_def]
      rfl
    have h1 : gcLoop (strData "POINTZ(1 2 3)")
        = .error (.dimensionMismatch 2 (strData "1 2 3")) := by
      rw [gcLoop_eq]
      rw [show typeContentAndRestStartingWithLetter (strData "POINTZ(1 2 3)")
          = Except.ok (strData "POINT(1 2 3)", []) from rfl]
      simp only []
      rw [hp]
    rw [decode_gc (l := .XY) (by decide) (by decide)]
    rw [createGeomCollectionForWkt_eq]
    rw [show braceContentAndRest (strData "GEOMETRYCOLLECTION(POINTZ(1 2 3))")
        = Except.ok (strData "POINTZ(1 2 3)", strData ")") from rfl]
    rw [if_neg (by decide)]
    simp only []
    rw [h1]
  · rfl

/-- C3 counterexample: decode of "POINT Z(1 2 3)" — with a space between the
keyword and the modifier — does not succeed with a Point: it fails with a
dimension mismatch, so the claim is false at this input. -/
theorem wkt_c3_counterexample :
    decode (strData "POINT Z(1 2 3)")
      = .error (.dimensionMismatch 2 (strData "1 2 3"))
    ∧ ∀ (l : Layout) (c : Option Coord),
        decode (strData "POINT Z(1 2 3)") ≠ .ok (.point l c) := by
  have h : decode (strData "POINT Z(1 2 3)")
      = .error (.dimensionMismatch 2 (strData "1 2 3")) := by
    rw [decode.eq_def]
    rfl
  refine ⟨h, ?_⟩
  intro l c hc
  rw [h] at hc
  cases hc

/-- C3 amended: the layout modifier is recognised only directly after the
keyword, so "POINT Z(1 2 3)" resolves to layout XY and fails with a
dimension mismatch on the three tokens, while the space-free
"POINTZ(1 2 3)" succeeds with layout XYZ and coordinate [1,2,3]. -/
theorem wkt_c3 :
    decode (strData "POINT Z(1 2 3)")
      = .error (.dimensionMismatch 2 (strData "1 2 3"))
    ∧ findTypeAndLayout (strData "POINT Z(1 2 3)") = .ok (tPoint, .XY)
    ∧ decode (strData "POINTZ(1 2 3)")
      = .ok (.point .XYZ (some [1, 2, 3])) := by
  refine ⟨?_, by decide, ?_⟩
  · rw [decode.eq_def]
    rfl
  · rw [decode.eq_def]
    rfl

/-- C4: decode failures are typed error values; a coordinate tuple whose
token count differs from the active layout's stride fails with the
dimension-mismatch error (carrying the stride and the brace content), as
decode("POINT(1 2 3)") shows; a tuple of matching token count holding a
token that does not parse as a number fails with the invalid-ordinate
error carrying the first such token, as decode("POINT(1 x)") shows; every
coordinate failure is one of these two errors; and a failure of
coordsFromBraceContent is the failure of one of its comma-separated
pieces. -/
theorem wkt_c4 :
    decode (strData "POINT(1 2 3)")
      = .error (.dimensionMismatch 2 (strData "1 2 3"))
    ∧ decode (strData "POINT(1 x)")
      = .error (.invalidOrdinate (strData "x"))
    ∧ (∀ (l : Layout) (s coordStr : List Char),
        (splitOnChar ' ' (trimSpace coordStr)).length ≠ l.stride →
        coordFromString l s coordStr = .error (.dimensionMismatch l.stride s))
    ∧ (∀ (l : Layout) (s coordStr tok : List Char)
        (pre post : List (List Char)),
        splitOnChar ' ' (trimSpace coordStr) = pre ++ tok :: post →
        (pre ++ tok :: post).length = l.stride →
        (∀ t ∈ pre, parseFloat t ≠ none) →
        parseFloat tok = none →
        coordFromString l s coordStr = .error (.invalidOrdinate tok))
    ∧ (∀ (l : Layout) (s coordStr : List Char) (e : WktError),
        coordFromString l s coordStr = .error e →
        e = .dimensionMismatch l.stride s ∨
          ∃ tok ∈ splitOnChar ' ' (trimSpace coordStr),
            parseFloat tok = none ∧ e = .invalidOrdinate tok)
    ∧ (∀ (s : List Char) (l : Layout) (e : WktError),
        coordsFromBraceContent s l = .error e →
        ∃ c ∈ splitOnChar ',' s, coordFromString l s c = .error e) := by
  refine ⟨?_, ?_, ?_, ?_, ?_, ?_⟩
  · rw [decode.eq_def]
    rfl
  · rw [decode.eq_def]
    rfl
  · intro l s coordStr hn
    simp only [coordFromString, if_pos hn]
  · intro l s coordStr tok pre post hsplit hlen hpre htok
    exact coordFromString_err_invalidOrdinate hsplit hlen hpre htok
  · intro l s coordStr e he
    exact coordFromString_err he
  · intro s l e he
    exact coordsLoop_err he

/-- C4 witness: a three-token tuple against stride 2 yields the
dimension-mismatch error, and a two-token tuple whose second token "x" is
unparseable yields the invalid-ordinate error carrying "x". -/
theorem wkt_c4_witness :
    coordFromString Layout.XY (strData "1 2 3") (strData "1 2 3")
      = .error (.dimensionMismatch 2 (strData "1 2 3"))
    ∧ coordFromString Layout.XY (strData "1 x") (strData "1 x")
      = .error (.invalidOrdinate (strData "x")) :=
  ⟨wkt_c4.2.2.1 Layout.XY (strData "1 2 3") (strData "1 2 3") (by decide),
   wkt_c4.2.2.2.1 Layout.XY (strData "1 x") (strData "1 x") (strData "x")
     [strData "1"] [] (by decide) (by decide) (by decide) (by decide)⟩

/-- C5 counterexample: "(()" contains a balanced parenthesis pair (its
inner "()"), yet braceContentAndRest fails with MalformedBraces, so failing
exactly on inputs without a balanced pair is false. -/
theorem wkt_c5_counterexample :
    containsBalancedPair (strData "(()") = true
    ∧ braceContentAndRest (strData "(()")
      = .error (.malformedBraces (strData "(()")) := by
  constructor
  · decide
  · decide

/-- C5 amended: braceContentAndRest fails with MalformedBraces exactly when
the scan finds no closing brace at which the running count of closing braces
equals the running count of opening braces (so it can fail even though a
balanced pair occurs, as "(()" shows); on success it returns the substring
strictly between the first opening brace and the first such count-balancing
closing brace — the matching closer whenever the braces before it are well
nested — together with the remainder starting at that closing brace; in
particular decode("POINT(1 2") returns MalformedBraces. -/
theorem wkt_c5 :
    (∀ s : List Char, braceContentAndRest s =
      match firstBalanced s, firstOpen s with
      | some ci, some oi =>
          .ok ((s.drop (oi + 1)).take (ci - (oi + 1)), s.drop ci)
      | _, _ => .error (.malformedBraces s))
    ∧ (∀ s c r : List Char, braceContentAndRest s = .ok (c, r) →
        ∃ oi ci, firstOpen s = some oi ∧ firstBalanced s = some ci ∧
          oi < ci ∧ ci < s.length ∧
          s[oi]? = some '(' ∧ s[ci]? = some ')' ∧
          (∀ k, k < oi → s[k]? ≠ some '(') ∧
          (∀ m, m < ci → balancedAt s m = false) ∧
          c = (s.drop (oi + 1)).take (ci - (oi + 1)) ∧ r = s.drop ci)
    ∧ decode (strData "POINT(1 2")
      = .error (.malformedBraces (strData "POINT(1 2")) := by
  refine ⟨braceContentAndRest_eq, ?_, ?_⟩
  · intro s c r h
    obtain ⟨oi, ci, h1, h2, h3, h4, h5, h6, h7, h8, h9⟩ :=
      braceContentAndRest_ok h
    obtain ⟨-, -, -, hmin⟩ := firstBalanced_spec h2
    exact ⟨oi, ci, h1, h2, h3, h4, h5, h6, h7, hmin, h8, h9⟩
  · rw [decode.eq_def]
    rfl

/-- C5 witness: the characterisation applied to a concrete success. -/
theorem wkt_c5_witness :
    ∃ oi ci,
      firstOpen (strData "POINT(1 2)") = some oi ∧
      firstBalanced (strData "POINT(1 2)") = some ci ∧
      oi < ci ∧ ci < (strData "POINT(1 2)").length ∧
      (strData "POINT(1 2)")[oi]? = some '(' ∧
      (strData "POINT(1 2)")[ci]? = some ')' ∧
      (∀ k, k < oi → (strData "POINT(1 2)")[k]? ≠ some '(') ∧
      (∀ m, m < ci → balancedAt (strData "POINT(1 2)") m = false) ∧
      strData "1 2" =
        ((strData "POINT(1 2)").drop (oi + 1)).take (ci - (oi + 1)) ∧
      strData ")" = (strData "POINT(1 2)").drop ci :=
  wkt_c5.2.1 (strData "POINT(1 2)") (strData "1 2") (strData ")")
    (by decide)

/-- C6: decode of a GEOMETRYCOLLECTION recursively decodes each child
extracted from the outer brace content and appends the results in input
order, stopping when the remainder is empty; a two-member collection and the
EMPTY collection come out as claimed. -/
theorem wkt_c6 :
    decode (strData "GEOMETRYCOLLECTION(POINT(1 1),LINESTRING(0 0,1 1))")
      = .ok (.collection
          [.point .XY (some [1, 1]), .lineString .XY [[0, 0], [1, 1]]])
    ∧ decode (strData "GEOMETRYCOLLECTION EMPTY") = .ok (.collection [])
    ∧ (∀ (content geomContent rest : List Char) (g : Geom),
        typeContentAndRestStartingWithLetter content
          = .ok (geomContent, rest) →
        decode geomContent = .ok g →
        (rest = [] → gcLoop content = .ok [g]) ∧
        (rest ≠ [] → gcLoop content = (gcLoop rest).map (g :: ·)))
    ∧ (∀ (w t : List Char) (l : Layout) (content rest : List Char),
        findTypeAndLayout w = .ok (t, l) → t = tGeometryCollection →
        endsWith w tEmpty = false →
        braceContentAndRest w = .ok (content, rest) →
        decode w = (gcLoop content).map .collection) := by
  refine ⟨?_, ?_, ?_, ?_⟩
  · have hp : decode (strData "POINT(1 1)")
        = .ok (.point .XY (some [1, 1])) := by
      rw [decode.eq_def]
      rfl
    have hl : decode (strData "LINESTRING(0 0,1 1)")
        = .ok (.lineString .XY [[0, 0], [1, 1]]) := by
      rw [decode.eq_def]
      rfl
    have h2 : gcLoop (strData "LINESTRING(0 0,1 1)")
        = .ok [.lineString .XY [[0, 0], [1, 1]]] := by
      rw [gcLoop_eq]
      rw [show typeContentAndRestStartingWithLetter
          (strData "LINESTRING(0 0,1 1)")
          = Except.ok (strData "LINESTRING(0 0,1 1)", []) from rfl]
      simp only []
      rw [hl]
      rfl
    have h1 : gcLoop (strData "POINT(1 1),LINESTRING(0 0,1 1)")
        = .ok [.point .XY (some [1, 1]), .lineString .XY [[0, 0], [1, 1]]] := by
      rw [gcLoop_eq]
      rw [show typeContentAndRestStartingWithLetter
          (strData "POINT(1 1),LINESTRING(0 0,1 1)")
          = Except.ok (strData "POINT(1 1)", strData "LINESTRING(0 0,1 1)")
          from rfl]
      simp only []
      rw [hp, h2]
      rfl
    rw [decode_gc (l := .XY) (by decide) (by decide)]
    rw [createGeomCollectionForWkt_eq]
    rw [show braceContentAndRest
        (strData "GEOMETRYCOLLECTION(POINT(1 1),LINESTRING(0 0,1 1))")
        = Except.ok (strData "POINT(1 1),LINESTRING(0 0,1 1)", strData ")")
        from rfl]
    rw [if_neg (by decide)]
    simp only []
    rw [h1]
  · rw [decode_gc (l := .XY) (by decide) (by decide)]
    rw [createGeomCollectionForWkt_eq]
    rfl
  · intro content geomContent rest g hT hg
    rw [gcLoop_eq, hT]
    simp only []
    rw [hg]
    simp only []
    constructor
    · intro h
      rw [if_pos h]
    · intro h
      rw [if_neg h]
      cases hrr : gcLoop rest <;> rfl
  · intro w t l content rest hf ht hE hb
    subst ht
    have hsw := (findTypeAndLayout_ok hf).2.1
    rw [decode_gc hf hsw, createGeomCollectionForWkt_eq]
    simp only [hE, Bool.false_eq_true, if_false]
    rw [hb]
    simp only []
    cases hg : gcLoop content <;> rfl

/-- C6 witness: the collection equation applied to a one-member input. -/
theorem wkt_c6_witness :
    decode (strData "GEOMETRYCOLLECTION(POINT(1 1))")
      = (gcLoop (strData "POINT(1 1)")).map Geom.collection :=
  wkt_c6.2.2.2 (strData "GEOMETRYCOLLECTION(POINT(1 1))")
    tGeometryCollection Layout.XY (strData "POINT(1 1)") (strData ")")
    (by decide) rfl (by decide) (by decide)

/-- C7: the layout of a recognised keyword is resolved by testing the text
directly after the keyword for ZM, then M, then Z, in that precedence,
with absence of a modifier giving XY; an input matching no keyword fails
with the unknown-type error carrying the offending text. -/
theorem wkt_c7 (w : List Char) :
    (∀ (t : List Char) (l : Layout), findTypeAndLayout w = .ok (t, l) →
      t ∈ keywordList ∧ startsWith w t = true ∧
      (startsWith w (t ++ tZm) = true → l = .XYZM) ∧
      (startsWith w (t ++ tZm) = false → startsWith w (t ++ tM) = true →
        l = .XYM) ∧
      (startsWith w (t ++ tZm) = false → startsWith w (t ++ tM) = false →
        startsWith w (t ++ tZ) = true → l = .XYZ) ∧
      (startsWith w (t ++ tZm) = false → startsWith w (t ++ tM) = false →
        startsWith w (t ++ tZ) = false → l = .XY))
    ∧ ((∀ k ∈ keywordList, startsWith w k = false) →
        findTypeAndLayout w = .error (.unknownType w)) := by
  constructor
  · intro t l hf
    obtain ⟨hmem, hsw, -⟩ := findTypeAndLayout_ok hf
    have hl := findTypeAndLayout_ok_layout hf
    refine ⟨hmem, hsw, ?_, ?_, ?_, ?_⟩
    · intro h1
      rw [hl, if_pos h1]
    · intro h1 h2
      rw [hl, h1, h2]
      rfl
    · intro h1 h2 h3
      rw [hl, h1, h2, h3]
      rfl
    · intro h1 h2 h3
      rw [hl, h1, h2, h3]
      rfl
  · exact findTypeAndLayout_none

/-- C7 witness: an unknown keyword and a ZM-modified keyword. -/
theorem wkt_c7_witness :
    findTypeAndLayout (strData "FOO(1 2)")
      = .error (.unknownType (strData "FOO(1 2)"))
    ∧ Layout.XYZM = Layout.XYZM :=
  ⟨(wkt_c7 (strData "FOO(1 2)")).2 (by decide),
    ((wkt_c7 (strData "POINTZM(1 2 3 4)")).1 tPoint Layout.XYZM
      (by decide)).2.2.1 (by decide)⟩

/-- Spec-side invariant for the stride claim: every coordinate stored
anywhere in a geometry has exactly stride many ordinates for the geometry's
layout, recursively through collections. -/
def strideOK : Geom → Bool
  | .point l c =>
    match c with
    | none => true
    | some cc => cc.length == l.stride
  | .lineString l cs => cs.all fun c => c.length == l.stride
  | .linearRing l cs => cs.all fun c => c.length == l.stride
  | .polygon l rs => rs.all fun r => r.all fun c => c.length == l.stride
  | .multiPoint l cs => cs.all fun c => c.length == l.stride
  | .multiLineString l ls =>
    ls.all fun r => r.all fun c => c.length == l.stride
  | .multiPolygon l ps =>
    ps.all fun p => p.all fun r => r.all fun c => c.length == l.stride
  | .collection gs => gs.attach.all fun g => strideOK g.1
decreasing_by
  have := List.sizeOf_lt_of_mem g.2
  simp only [Geom.collection.sizeOf_spec]
  omega

/-- Every coordinate read by readCoordsDim1 has stride many ordinates. -/
theorem readCoordsDim1_ok_stride {l : Layout} {w : List Char}
    {coords : List Coord} {rest : List Char}
    (h : readCoordsDim1 l w = .ok (coords, rest)) :
    ∀ c ∈ coords, c.length = l.stride := by
  unfold readCoordsDim1 at h
  split_ifs at h with he
  · simp only [Except.ok.injEq, Prod.mk.injEq] at h
    obtain ⟨h1, -⟩ := h
    subst h1
    simp
  · cases hb : braceContentAndRestStartingWithOpeningBrace w with
    | error e => rw [hb] at h; simp at h
    | ok cr =>
      obtain ⟨c0, r0⟩ := cr
      rw [hb] at h
      simp only [] at h
      cases hc : coordsFromBraceContent c0 l with
      | error e => rw [hc] at h; simp at h
      | ok coords0 =>
        rw [hc] at h
        simp only [Except.ok.injEq, Prod.mk.injEq] at h
        obtain ⟨rfl, rfl⟩ := h
        exact coordsLoop_ok_stride hc

/-- Unfolding of dim2Loop free of the dependent match. -/
theorem dim2Loop_eq (l : Layout) (content : List Char) :
    dim2Loop l content =
      match readCoordsDim1 l content with
      | .error e => .error e
      | .ok (coordsDim1, restDim1) =>
        if restDim1 = [] then .ok [coordsDim1]
        else
          match dim2Loop l restDim1 with
          | .error e => .error e
          | .ok tail => .ok (coordsDim1 :: tail) := by
  rw [dim2Loop.eq_def]
  cases h1 : readCoordsDim1 l content with
  | error e => rfl
  | ok p =>
    obtain ⟨cs, rest⟩ := p
    by_cases hr : rest = []
    · simp only [dif_pos hr, if_pos hr]
    · simp only [dif_neg hr, if_neg hr]

/-- Every coordinate produced by the Dim1 sibling loop has stride many
ordinates. -/
theorem dim2Loop_ok_stride {l : Layout} :
    ∀ {content : List Char} {out : List (List Coord)},
      dim2Loop l content = .ok out →
      ∀ r ∈ out, ∀ c ∈ r, c.length = l.stride := by
  intro content
  induction content using dim2Loop.induct l with
  | case1 x e h1 =>
    intro out h
    rw [dim2Loop_eq, h1] at h
    simp at h
  | case2 x cs h1 =>
    intro out h
    rw [dim2Loop_eq, h1] at h
    simp at h
    subst h
    intro r hr c hc
    simp only [List.mem_singleton] at hr
    subst hr
    exact readCoordsDim1_ok_stride h1 c hc
  | case3 x cs rest h1 hne e h2 ih =>
    intro out h
    rw [dim2Loop_eq, h1] at h
    simp only [if_neg hne] at h
    rw [h2] at h
    simp at h
  | case4 x cs rest h1 hne tail h2 ih =>
    intro out h
    rw [dim2Loop_eq, h1] at h
    simp only [if_neg hne] at h
    rw [h2] at h
    simp only [Except.ok.injEq] at h
    subst h
    intro r hr c hc
    rcases List.mem_cons.mp hr with rfl | hmem
    · exact readCoordsDim1_ok_stride h1 c hc
    · exact ih h2 r hmem c hc

/-- Every coordinate read by readCoordsDim2 has stride many ordinates. -/
theorem readCoordsDim2_ok_stride {l : Layout} {w : List Char}
    {coords : List (List Coord)} {rest : List Char}
    (h : readCoordsDim2 l w = .ok (coords, rest)) :
    ∀ r ∈ coords, ∀ c ∈ r, c.length = l.stride := by
  unfold readCoordsDim2 at h
  split_ifs at h with he
  · simp only [Except.ok.injEq, Prod.mk.injEq] at h
    obtain ⟨h1, -⟩ := h
    subst h1
    simp
  · cases hb : braceContentAndRestStartingWithOpeningBrace w with
    | error e => rw [hb] at h; simp at h
    | ok cr =>
      obtain ⟨c0, r0⟩ := cr
      rw [hb] at h
      simp only [] at h
      cases hc : dim2Loop l c0 with
      | error e => rw [hc] at h; simp at h
      | ok coords0 =>
        rw [hc] at h
        simp only [Except.ok.injEq, Prod.mk.injEq] at h
        obtain ⟨rfl, rfl⟩ := h
        exact dim2Loop_ok_stride hc

/-- Unfolding of dim3Loop free of the dependent match. -/
theorem dim3Loop_eq (l : Layout) (content : List Char) :
    dim3Loop l content =
      match readCoordsDim2 l content with
      | .error e => .error e
      | .ok (coordsDim2, restDim2) =>
        if restDim2 = [] then .ok [coordsDim2]
        else
          match dim3Loop l restDim2 with
          | .error e => .error e
          | .ok tail => .ok (coordsDim2 :: tail) := by
  rw [dim3Loop.eq_def]
  cases h1 : readCoordsDim2 l content with
  | error e => rfl
  | ok p =>
    obtain ⟨cs, rest⟩ := p
    by_cases hr : rest = []
    · simp only [dif_pos hr, if_pos hr]
    · simp only [dif_neg hr, if_neg hr]

/-- Every coordinate produced by the Dim2 sibling loop has stride many
ordinates. -/
theorem dim3Loop_ok_stride {l : Layout} :
    ∀ {content : List Char} {out : List (List (List Coord))},
      dim3Loop l content = .ok out →
      ∀ p ∈ out, ∀ r ∈ p, ∀ c ∈ r, c.length = l.stride := by
  intro content
  induction content using dim3Loop.induct l with
  | case1 x e h1 =>
    intro out h
    rw [dim3Loop_eq, h1] at h
    simp at h
  | case2 x cs h1 =>
    intro out h
    rw [dim3Loop_eq, h1] at h
    simp at h
    subst h
    intro p hp
    simp only [List.mem_singleton] at hp
    subst hp
    exact readCoordsDim2_ok_stride h1
  | case3 x cs rest h1 hne e h2 ih =>
    intro out h
    rw [dim3Loop_eq, h1] at h
    simp only [if_neg hne] at h
    rw [h2] at h
    simp at h
  | case4 x cs rest h1 hne tail h2 ih =>
    intro out h
    rw [dim3Loop_eq, h1] at h
    simp only [if_neg hne] at h
    rw [h2] at h
    simp only [Except.ok.injEq] at h
    subst h
    intro p hp
    rcases List.mem_cons.mp hp with rfl | hmem
    · exact readCoordsDim2_ok_stride h1
    · exact ih h2 p hmem

/-- Every coordinate read by readCoordsDim3 has stride many ordinates. -/
theorem readCoordsDim3_ok_stride {l : Layout} {w : List Char}
    {coords : List (List (List Coord))} {rest : List Char}
    (h : readCoordsDim3 l w = .ok (coords, rest)) :
    ∀ p ∈ coords, ∀ r ∈ p, ∀ c ∈ r, c.length = l.stride := by
  unfold readCoordsDim3 at h
  split_ifs at h with he
  · simp only [Except.ok.injEq, Prod.mk.injEq] at h
    obtain ⟨h1, -⟩ := h
    subst h1
    simp
  · cases hb : braceContentAndRestStartingWithOpeningBrace w with
    | error e => rw [hb] at h; simp at h
    | ok cr =>
      obtain ⟨c0, r0⟩ := cr
      rw [hb] at h
      simp only [] at h
      cases hc : dim3Loop l c0 with
      | error e => rw [hc] at h; simp at h
      | ok coords0 =>
        rw [hc] at h
        simp only [Except.ok.injEq, Prod.mk.injEq] at h
        obtain ⟨rfl, rfl⟩ := h
        exact dim3Loop_ok_stride hc

/-- strideOK of a collection reduces to strideOK on the members. -/
theorem strideOK_collection {gs : List Geom} :
    strideOK (.collection gs) = true ↔ ∀ g ∈ gs, strideOK g = true := by
  rw [strideOK]
  rw [List.all_eq_true]
  constructor
  · intro h g hg
    exact h ⟨g, hg⟩ (List.mem_attach _ _)
  · intro h x hx
    exact h x.1 x.2

/-- Stride preservation through the collection loop, assuming it for
recursively decoded children below the given size bound. -/
theorem gcLoop_strideOK_aux (n : Nat)
    (IH : ∀ w g, w.length < n → decode w = .ok g → strideOK g = true) :
    ∀ (m : Nat) (content : List Char) (gs : List Geom),
      content.length ≤ m → content.length + 20 ≤ n →
      gcLoop content = .ok gs → ∀ g ∈ gs, strideOK g = true := by
  intro m
  induction m with
  | zero =>
    intro content gs hm hn h
    have hc : content = [] := List.length_eq_zero.mp (by omega)
    subst hc
    rw [gcLoop_eq] at h
    rw [show typeContentAndRestStartingWithLetter ([] : List Char)
        = .error (.malformedBraces []) from rfl] at h
    simp at h
  | succ m ih =>
    intro content gs hm hn h
    rw [gcLoop_eq] at h
    cases ht : typeContentAndRestStartingWithLetter content with
    | error e => rw [ht] at h; simp at h
    | ok gr =>
      obtain ⟨geomContent, rest⟩ := gr
      rw [ht] at h
      simp only [] at h
      obtain ⟨hg1, hg2, hg3⟩ := typeContentAndRestStartingWithLetter_ok_bounds ht
      cases hd : decode geomContent with
      | error e => rw [hd] at h; simp at h
      | ok g0 =>
        rw [hd] at h
        simp only [] at h
        have hst0 : strideOK g0 = true := IH geomContent g0 (by omega) hd
        by_cases hr : rest = []
        · rw [if_pos hr] at h
          simp only [Except.ok.injEq] at h
          subst h
          intro g hg
          simp only [List.mem_singleton] at hg
          subst hg
          exact hst0
        · rw [if_neg hr] at h
          cases hgl : gcLoop rest with
          | error e => rw [hgl] at h; simp at h
          | ok gs0 =>
            rw [hgl] at h
            simp only [Except.ok.injEq] at h
            subst h
            intro g hg
            rcases List.mem_cons.mp hg with rfl | hmem
            · exact hst0
            · exact ih rest gs0 (by omega) (by omega) hgl g hmem

/-- Stride preservation of decode, by strong induction on the input
length. -/
theorem decode_strideOK_aux :
    ∀ (n : Nat) (w : List Char) (g : Geom), w.length ≤ n →
      decode w = .ok g → strideOK g = true := by
  intro n
  induction n using Nat.strong_induction_on with
  | _ n IH =>
    intro w g hlen hdec
    cases hf : findTypeAndLayout w with
    | error e =>
      rw [decode_err_findType hf] at hdec
      cases hdec
    | ok tl =>
      obtain ⟨t, l⟩ := tl
      have hmem := (findTypeAndLayout_ok hf).1
      simp only [keywordList, List.mem_cons, List.not_mem_nil,
        or_false] at hmem
      rcases hmem with rfl | rfl | rfl | rfl | rfl | rfl | rfl
      · rw [decode_point hf] at hdec
        cases hr : readCoordsDim1 l w with
        | error e => rw [hr] at hdec; simp at hdec
        | ok p =>
          obtain ⟨coords, rest⟩ := p
          rw [hr] at hdec
          simp only [] at hdec
          cases coords with
          | nil =>
            simp only [Except.ok.injEq] at hdec
            subst hdec
            simp [strideOK]
          | cons c cs =>
            simp only [Except.ok.injEq] at hdec
            subst hdec
            have := readCoordsDim1_ok_stride hr c (by simp)
            simp [strideOK, this]
      · rw [decode_lineString hf] at hdec
        cases hr : readCoordsDim1 l w with
        | error e => rw [hr] at hdec; simp at hdec
        | ok p =>
          obtain ⟨coords, rest⟩ := p
          rw [hr] at hdec
          simp only [] at hdec
          cases coords with
          | nil =>
            simp only [Except.ok.injEq] at hdec
            subst hdec
            simp [strideOK]
          | cons c cs =>
            have hall := readCoordsDim1_ok_stride hr
            simp only [] at hdec
            split_ifs at hdec <;>
              (simp only [Except.ok.injEq] at hdec
               subst hdec
               simp only [strideOK, List.all_eq_true, beq_iff_eq]
               exact fun c' hc' => hall c' hc')
      · rw [decode_polygon hf] at hdec
        cases hr : readCoordsDim2 l w with
        | error e => rw [hr] at hdec; simp at hdec
        | ok p =>
          obtain ⟨coords, rest⟩ := p
          rw [hr] at hdec
          simp only [Except.ok.injEq] at hdec
          subst hdec
          simp only [strideOK, List.all_eq_true, beq_iff_eq]
          exact fun r hr' c hc' => readCoordsDim2_ok_stride hr r hr' c hc'
      · rw [decode_multiPoint hf] at hdec
        cases hr : readCoordsDim1 l w with
        | error e => rw [hr] at hdec; simp at hdec
        | ok p =>
          obtain ⟨coords, rest⟩ := p
          rw [hr] at hdec
          simp only [Except.ok.injEq] at hdec
          subst hdec
          simp only [strideOK, List.all_eq_true, beq_iff_eq]
          exact fun c hc' => readCoordsDim1_ok_stride hr c hc'
      · rw [decode_multiLineString hf] at hdec
        cases hr : readCoordsDim2 l w with
        | error e => rw [hr] at hdec; simp at hdec
        | ok p =>
          obtain ⟨coords, rest⟩ := p
          rw [hr] at hdec
          simp only [Except.ok.injEq] at hdec
          subst hdec
          simp only [strideOK, List.all_eq_true, beq_iff_eq]
          exact fun r hr' c hc' => readCoordsDim2_ok_stride hr r hr' c hc'
      · rw [decode_multiPolygon hf] at hdec
        cases hr : readCoordsDim3 l w with
        | error e => rw [hr] at hdec; simp at hdec
        | ok p =>
          obtain ⟨coords, rest⟩ := p
          rw [hr] at hdec
          simp only [Except.ok.injEq] at hdec
          subst hdec
          simp only [strideOK, List.all_eq_true, beq_iff_eq]
          exact fun q hq r hr' c hc' =>
            readCoordsDim3_ok_stride hr q hq r hr' c hc'
      · have hsw := (findTypeAndLayout_ok hf).2.1
        rw [decode_gc hf hsw, createGeomCollectionForWkt_eq] at hdec
        split_ifs at hdec with he
        · simp only [Except.ok.injEq] at hdec
          subst hdec
          exact strideOK_collection.mpr (by simp)
        · cases hb : braceContentAndRest w with
          | error e => rw [hb] at hdec; simp at hdec
          | ok cr =>
            obtain ⟨content, rest⟩ := cr
            rw [hb] at hdec
            simp only [] at hdec
            cases hgl : gcLoop content with
            | error e => rw [hgl] at hdec; simp at hdec
            | ok gs =>
              rw [hgl] at hdec
              simp only [Except.ok.injEq] at hdec
              subst hdec
              have h18 : tGeometryCollection.length = 18 := by decide
              have hbd := braceContentAndRest_ok_startsWith hb hsw (by decide)
              refine strideOK_collection.mpr ?_
              exact gcLoop_strideOK_aux n
                (fun w' g' hlt hd' => IH w'.length hlt w' g' le_rfl hd')
                content.length content gs le_rfl (by omega) hgl

/-- Concrete evaluation of decode at POINT(1 2), for the stride witness. -/
theorem decodePoint12Eval :
    decode (strData "POINT(1 2)") = .ok (.point .XY (some [1, 2])) := by
  rw [decode.eq_def]
  rfl

/-- C8: every coordinate anywhere in a successfully decoded geometry has
length exactly the stride of the layout detected for that geometry,
recursively through nested collections; in particular all coordinates
within one decoded value (which share that layout) have identical length. -/
theorem wkt_c8 (w : List Char) (g : Geom) (h : decode w = .ok g) :
    strideOK g = true :=
  decode_strideOK_aux w.length w g le_rfl h

/-- C8 witness: the invariant at a decoded concrete Point. -/
theorem wkt_c8_witness : strideOK (.point .XY (some [1, 2])) = true :=
  wkt_c8 (strData "POINT(1 2)") (.point .XY (some [1, 2])) decodePoint12Eval

/-- An error of braceContentAndRest is the malformed-braces error on the
input. -/
theorem braceContentAndRest_err_form {s : List Char} {e : WktError}
    (h : braceContentAndRest s = .error e) : e = .malformedBraces s := by
  rw [braceContentAndRest_eq] at h
  cases hfb : firstBalanced s <;> cases hfo : firstOpen s <;>
    rw [hfb, hfo] at h <;> simp_all

/-- readCoordsDim1 never fails with the unsupported-type error. -/
theorem readCoordsDim1_err_class {l : Layout} {w : List Char} {e : WktError}
    (h : readCoordsDim1 l w = .error e) :
    ∀ ts, e ≠ .unsupportedType ts := by
  unfold readCoordsDim1 at h
  split_ifs at h with he
  · cases hb : braceContentAndRestStartingWithOpeningBrace w with
    | error e0 =>
      rw [hb] at h
      simp only [Except.error.injEq] at h
      subst h
      have hm := braceContentAndRestStartingWithOpeningBrace_err hb
      subst hm
      intro ts
      simp
    | ok cr =>
      obtain ⟨c0, r0⟩ := cr
      rw [hb] at h
      simp only [] at h
      cases hc : coordsFromBraceContent c0 l with
      | error e0 =>
        rw [hc] at h
        simp only [Except.error.injEq] at h
        subst h
        obtain ⟨cc, -, hcf⟩ := coordsLoop_err hc
        rcases coordFromString_err hcf with h1 | ⟨tok, -, -, h1⟩ <;>
          (subst h1; intro ts; simp)
      | ok coords0 => rw [hc] at h; simp at h

/-- The Dim1 sibling loop never fails with the unsupported-type error. -/
theorem dim2Loop_err_class {l : Layout} :
    ∀ {content : List Char} {e : WktError},
      dim2Loop l content = .error e → ∀ ts, e ≠ .unsupportedType ts := by
  intro content
  induction content using dim2Loop.induct l with
  | case1 x e0 h1 =>
    intro e h
    rw [dim2Loop_eq, h1] at h
    simp only [Except.error.injEq] at h
    subst h
    exact readCoordsDim1_err_class h1
  | case2 x cs h1 =>
    intro e h
    rw [dim2Loop_eq, h1] at h
    simp at h
  | case3 x cs rest h1 hne e0 h2 ih =>
    intro e h
    rw [dim2Loop_eq, h1] at h
    simp only [if_neg hne] at h
    rw [h2] at h
    simp only [Except.error.injEq] at h
    subst h
    exact ih h2
  | case4 x cs rest h1 hne tail h2 ih =>
    intro e h
    rw [dim2Loop_eq, h1] at h
    simp only [if_neg hne] at h
    rw [h2] at h
    simp at h

/-- readCoordsDim2 never fails with the unsupported-type error. -/
theorem readCoordsDim2_err_class {l : Layout} {w : List Char} {e : WktError}
    (h : readCoordsDim2 l w = .error e) :
    ∀ ts, e ≠ .unsupportedType ts := by
  unfold readCoordsDim2 at h
  split_ifs at h with he
  · cases hb : braceContentAndRestStartingWithOpeningBrace w with
    | error e0 =>
      rw [hb] at h
      simp only [Except.error.injEq] at h
      subst h
      have hm := braceContentAndRestStartingWithOpeningBrace_err hb
      subst hm
      intro ts
      simp
    | ok cr =>
      obtain ⟨c0, r0⟩ := cr
      rw [hb] at h
      simp only [] at h
      cases hc : dim2Loop l c0 with
      | error e0 =>
        rw [hc] at h
        simp only [Except.error.injEq] at h
        subst h
        exact dim2Loop_err_class hc
      | ok coords0 => rw [hc] at h; simp at h

/-- The Dim2 sibling loop never fails with the unsupported-type error. -/
theorem dim3Loop_err_class {l : Layout} :
    ∀ {content : List Char} {e : WktError},
      dim3Loop l content = .error e → ∀ ts, e ≠ .unsupportedType ts := by
  intro content
  induction content using dim3Loop.induct l with
  | case1 x e0 h1 =>
    intro e h
    rw [dim3Loop_eq, h1] at h
    simp only [Except.error.injEq] at h
    subst h
    exact readCoordsDim2_err_class h1
  | case2 x cs h1 =>
    intro e h
    rw [dim3Loop_eq, h1] at h
    simp at h
  | case3 x cs rest h1 hne e0 h2 ih =>
    intro e h
    rw [dim3Loop_eq, h1] at h
    simp only [if_neg hne] at h
    rw [h2] at h
    simp only [Except.error.injEq] at h
    subst h
    exact ih h2
  | case4 x cs rest h1 hne tail h2 ih =>
    intro e h
    rw [dim3Loop_eq, h1] at h
    simp only [if_neg hne] at h
    rw [h2] at h
    simp at h

/-- readCoordsDim3 never fails with the unsupported-type error. -/
theorem readCoordsDim3_err_class {l : Layout} {w : List Char} {e : WktError}
    (h : readCoordsDim3 l w = .error e) :
    ∀ ts, e ≠ .unsupportedType ts := by
  unfold readCoordsDim3 at h
  split_ifs at h with he
  · cases hb : braceContentAndRestStartingWithOpeningBrace w with
    | error e0 =>
      rw [hb] at h
      simp only [Except.error.injEq] at h
      subst h
      have hm := braceContentAndRestStartingWithOpeningBrace_err hb
      subst hm
      intro ts
      simp
    | ok cr =>
      obtain ⟨c0, r0⟩ := cr
      rw [hb] at h
      simp only [] at h
      cases hc : dim3Loop l c0 with
      | error e0 =>
        rw [hc] at h
        simp only [Except.error.injEq] at h
        subst h
        exact dim3Loop_err_class hc
      | ok coords0 => rw [hc] at h; simp at h

/-- Collection-loop failures are never the unsupported-type error, assuming
it for recursively decoded children below the given size bound. -/
theorem gcLoop_noUnsup_aux (n : Nat)
    (IH : ∀ (w : List Char) (e : WktError), w.length < n →
      decode w = .error e → ∀ ts, e ≠ .unsupportedType ts) :
    ∀ (m : Nat) (content : List Char) (e : WktError),
      content.length ≤ m → content.length + 20 ≤ n →
      gcLoop content = .error e → ∀ ts, e ≠ .unsupportedType ts := by
  intro m
  induction m with
  | zero =>
    intro content e hm hn h
    have hc : content = [] := List.length_eq_zero.mp (by omega)
    subst hc
    rw [gcLoop_eq] at h
    rw [show typeContentAndRestStartingWithLetter ([] : List Char)
        = .error (.malformedBraces []) from rfl] at h
    simp only [Except.error.injEq] at h
    subst h
    intro ts
    simp
  | succ m ih =>
    intro content e hm hn h
    rw [gcLoop_eq] at h
    cases ht : typeContentAndRestStartingWithLetter content with
    | error e0 =>
      rw [ht] at h
      simp only [Except.error.injEq] at h
      subst h
      rcases typeContentAndRestStartingWithLetter_err ht with h1 | h1 <;>
        (subst h1; intro ts; simp)
    | ok gr =>
      obtain ⟨geomContent, rest⟩ := gr
      rw [ht] at h
      simp only [] at h
      obtain ⟨hg1, hg2, hg3⟩ := typeContentAndRestStartingWithLetter_ok_bounds ht
      cases hd : decode geomContent with
      | error e0 =>
        rw [hd] at h
        simp only [Except.error.injEq] at h
        subst h
        exact IH geomContent e0 (by omega) hd
      | ok g0 =>
        rw [hd] at h
        simp only [] at h
        by_cases hr : rest = []
        · rw [if_pos hr] at h
          simp at h
        · rw [if_neg hr] at h
          cases hgl : gcLoop rest with
          | error e0 =>
            rw [hgl] at h
            simp only [Except.error.injEq] at h
            subst h
            exact ih rest e0 (by omega) (by omega) hgl
          | ok gs0 => rw [hgl] at h; simp at h

/-- decode never fails with the unsupported-type error, by strong induction
on the input length. -/
theorem decode_noUnsup_aux :
    ∀ (n : Nat) (w : List Char) (e : WktError), w.length ≤ n →
      decode w = .error e → ∀ ts, e ≠ .unsupportedType ts := by
  intro n
  induction n using Nat.strong_induction_on with
  | _ n IH =>
    intro w e hlen hdec
    cases hf : findTypeAndLayout w with
    | error e0 =>
      rw [decode_err_findType hf] at hdec
      simp only [Except.error.injEq] at hdec
      subst hdec
      have h1 := findTypeAndLayout_err hf
      subst h1
      intro ts
      simp
    | ok tl =>
      obtain ⟨t, l⟩ := tl
      have hmem := (findTypeAndLayout_ok hf).1
      simp only [keywordList, List.mem_cons, List.not_mem_nil,
        or_false] at hmem
      rcases hmem with rfl | rfl | rfl | rfl | rfl | rfl | rfl
      · rw [decode_point hf] at hdec
        cases hr : readCoordsDim1 l w with
        | error e0 =>
          rw [hr] at hdec
          simp only [Except.error.injEq] at hdec
          subst hdec
          exact readCoordsDim1_err_class hr
        | ok p =>
          obtain ⟨coords, rest⟩ := p
          rw [hr] at hdec
          simp only [] at hdec
          cases coords <;> simp at hdec
      · rw [decode_lineString hf] at hdec
        cases hr : readCoordsDim1 l w with
        | error e0 =>
          rw [hr] at hdec
          simp only [Except.error.injEq] at hdec
          subst hdec
          exact readCoordsDim1_err_class hr
        | ok p =>
          obtain ⟨coords, rest⟩ := p
          rw [hr] at hdec
          simp only [] at hdec
          cases coords with
          | nil => simp at hdec
          | cons c cs =>
            simp only [] at hdec
            split_ifs at hdec
      · rw [decode_polygon hf] at hdec
        cases hr : readCoordsDim2 l w with
        | error e0 =>
          rw [hr] at hdec
          simp only [Except.error.injEq] at hdec
          subst hdec
          exact readCoordsDim2_err_class hr
        | ok p =>
          obtain ⟨coords, rest⟩ := p
          rw [hr] at hdec
          simp at hdec
      · rw [decode_multiPoint hf] at hdec
        cases hr : readCoordsDim1 l w with
        | error e0 =>
          rw [hr] at hdec
          simp only [Except.error.injEq] at hdec
          subst hdec
          exact readCoordsDim1_err_class hr
        | ok p =>
          obtain ⟨coords, rest⟩ := p
          rw [hr] at hdec
          simp at hdec
      · rw [decode_multiLineString hf] at hdec
        cases hr : readCoordsDim2 l w with
        | error e0 =>
          rw [hr] at hdec
          simp only [Except.error.injEq] at hdec
          subst hdec
          exact readCoordsDim2_err_class hr
        | ok p =>
          obtain ⟨coords, rest⟩ := p
          rw [hr] at hdec
          simp at hdec
      · rw [decode_multiPolygon hf] at hdec
        cases hr : readCoordsDim3 l w with
        | error e0 =>
          rw [hr] at hdec
          simp only [Except.error.injEq] at hdec
          subst hdec
          exact readCoordsDim3_err_class hr
        | ok p =>
          obtain ⟨coords, rest⟩ := p
          rw [hr] at hdec
          simp at hdec
      · have hsw := (findTypeAndLayout_ok hf).2.1
        rw [decode_gc hf hsw, createGeomCollectionForWkt_eq] at hdec
        split_ifs at hdec with he
        · cases hb : braceContentAndRest w with
          | error e0 =>
            rw [hb] at hdec
            simp only [Except.error.injEq] at hdec
            subst hdec
            have h1 := braceContentAndRest_err_form hb
            subst h1
            intro ts
            simp
          | ok cr =>
            obtain ⟨content, rest⟩ := cr
            rw [hb] at hdec
            simp only [] at hdec
            cases hgl : gcLoop content with
            | error e0 =>
              rw [hgl] at hdec
              simp only [Except.error.injEq] at hdec
              subst hdec
              have h18 : tGeometryCollection.length = 18 := by decide
              have hbd := braceContentAndRest_ok_startsWith hb hsw (by decide)
              exact gcLoop_noUnsup_aux n
                (fun w' e' hlt hd' => IH w'.length hlt w' e' le_rfl hd')
                content.length content e0 le_rfl (by omega) hgl
            | ok gs => rw [hgl] at hdec; simp at hdec

/-- Concrete evaluation of decode at an unclosed input, for the
unreachability witness. -/
theorem decodeUnclosedEval :
    decode (strData "POINT(1 2")
      = .error (.malformedBraces (strData "POINT(1 2")) := by
  rw [decode.eq_def]
  rfl

/-- C9: findTypeAndLayout only ever resolves one of the seven keywords, and
decode never returns the unsupported-type error: the default dispatch arm is
unreachable. -/
theorem wkt_c9 (w : List Char) :
    (∀ (t : List Char) (l : Layout), findTypeAndLayout w = .ok (t, l) →
      t ∈ keywordList)
    ∧ (∀ e : WktError, decode w = .error e →
        ∀ ts, e ≠ .unsupportedType ts) := by
  constructor
  · intro t l hf
    exact (findTypeAndLayout_ok hf).1
  · intro e hdec
    exact decode_noUnsup_aux w.length w e le_rfl hdec

/-- C9 witness: a failing decode whose error is not the unsupported-type
error, and a resolved keyword in the keyword list. -/
theorem wkt_c9_witness :
    WktError.malformedBraces (strData "POINT(1 2")
      ≠ WktError.unsupportedType []
    ∧ tPoint ∈ keywordList :=
  ⟨(wkt_c9 (strData "POINT(1 2")).2
      (.malformedBraces (strData "POINT(1 2")) decodeUnclosedEval [],
    (wkt_c9 (strData "POINT(1 2)")).1 tPoint Layout.XY (by decide)⟩

/-- Appending text cannot change a prefix test against brace-free text once
the base already contains an opening brace. -/
theorem startsWith_append_eq {s pat : List Char} (hs : '(' ∈ s)
    (hp : countOpen pat = 0) (u : List Char) :
    startsWith (s ++ u) pat = startsWith s pat := by
  rcases le_or_lt pat.length s.length with hle | hlt
  · unfold startsWith
    congr 1
    rw [List.take_append_eq_append_take]
    rw [show pat.length - s.length = 0 from by omega]
    simp
  · have h1 : startsWith s pat = false := by
      unfold startsWith
      rw [List.take_of_length_le (by omega)]
      simp only [beq_eq_false_iff_ne, ne_eq]
      intro hcontra
      have := congrArg List.length hcontra
      omega
    have h2 : startsWith (s ++ u) pat = false := by
      cases hb : startsWith (s ++ u) pat
      · rfl
      · exfalso
        unfold startsWith at hb
        rw [beq_iff_eq] at hb
        have hTT : ((s ++ u).take pat.length).take s.length
            = pat.take s.length := by rw [hb]
        rw [List.take_take, show s.length ⊓ pat.length = s.length from by
          omega] at hTT
        rw [List.take_left] at hTT
        have hin : '(' ∈ pat := List.mem_of_mem_take (hTT ▸ hs)
        have : 0 < countOpen pat :=
          List.countP_pos_iff.mpr ⟨'(', hin, by simp⟩
        omega
    rw [h1, h2]

/-- A resolved type and layout are unchanged by appending trailing text, once
the input contains an opening brace. -/
theorem findTypeAndLayout_append {w0 u t : List Char} {l : Layout}
    (hw : '(' ∈ w0) (hok : findTypeAndLayout w0 = .ok (t, l)) :
    findTypeAndLayout (w0 ++ u) = .ok (t, l) := by
  have hsw : ∀ pat : List Char, countOpen pat = 0 →
      startsWith (w0 ++ u) pat = startsWith w0 pat := fun pat hp =>
    startsWith_append_eq hw hp u
  simp only [findTypeAndLayout] at hok ⊢
  rw [hsw tPoint (by decide), hsw tLineString (by decide),
    hsw tPolygon (by decide), hsw tMultiPoint (by decide),
    hsw tMultiLineString (by decide), hsw tMultiPolygon (by decide),
    hsw tGeometryCollection (by decide)]
  split_ifs at hok ⊢ with h1 h2 h3 h4 h5 h6 h7
  · simp only [] at hok ⊢
    rw [hsw (tPoint ++ tZm) (by decide), hsw (tPoint ++ tM) (by decide),
      hsw (tPoint ++ tZ) (by decide)]
    exact hok
  · simp only [] at hok ⊢
    rw [hsw (tLineString ++ tZm) (by decide),
      hsw (tLineString ++ tM) (by decide),
      hsw (tLineString ++ tZ) (by decide)]
    exact hok
  · simp only [] at hok ⊢
    rw [hsw (tPolygon ++ tZm) (by decide), hsw (tPolygon ++ tM) (by decide),
      hsw (tPolygon ++ tZ) (by decide)]
    exact hok
  · simp only [] at hok ⊢
    rw [hsw (tMultiPoint ++ tZm) (by decide),
      hsw (tMultiPoint ++ tM) (by decide),
      hsw (tMultiPoint ++ tZ) (by decide)]
    exact hok
  · simp only [] at hok ⊢
    rw [hsw (tMultiLineString ++ tZm) (by decide),
      hsw (tMultiLineString ++ tM) (by decide),
      hsw (tMultiLineString ++ tZ) (by decide)]
    exact hok
  · simp only [] at hok ⊢
    rw [hsw (tMultiPolygon ++ tZm) (by decide),
      hsw (tMultiPolygon ++ tM) (by decide),
      hsw (tMultiPolygon ++ tZ) (by decide)]
    exact hok
  · simp only [] at hok ⊢
    rw [hsw (tGeometryCollection ++ tZm) (by decide),
      hsw (tGeometryCollection ++ tM) (by decide),
      hsw (tGeometryCollection ++ tZ) (by decide)]
    exact hok

/-- The first opening brace after brace-free text is at its length. -/
theorem firstOpen_split {pre rest : List Char} (h : ∀ c ∈ pre, c ≠ '(') :
    firstOpen (pre ++ '(' :: rest) = some pre.length := by
  induction pre with
  | nil => simp [firstOpen]
  | cons c p ih =>
    have hc : c ≠ '(' := h c (by simp)
    simp only [List.cons_append, firstOpen, if_neg hc, List.append_eq]
    rw [ih (fun c' hc' => h c' (by simp [hc']))]
    simp

/-- Positions inside the base string balance the same way after appending. -/
theorem balancedAt_append_left {s u : List Char} {j : Nat}
    (h : j < s.length) : balancedAt (s ++ u) j = balancedAt s j := by
  unfold balancedAt
  rw [List.getElem?_append, if_pos h]
  rw [List.take_append_eq_append_take,
    show j + 1 - s.length = 0 from by omega]
  simp

/-- The first balancing position survives appending text. -/
theorem firstBalanced_append_of_some {s u : List Char} {ci : Nat}
    (h : firstBalanced s = some ci) :
    firstBalanced (s ++ u) = some ci := by
  obtain ⟨h1, h2, h3, h4⟩ := firstBalanced_spec h
  apply firstBalanced_intro
  · rw [balancedAt_append_left h1]
    simp [balancedAt, h2, h3]
  · intro m hm
    rw [balancedAt_append_left (by omega)]
    exact h4 m hm

/-- endsWith finds a decomposition. -/
theorem endsWith_eq_append {s p : List Char} (h : endsWith s p = true) :
    ∃ q, s = q ++ p := by
  unfold endsWith at h
  rw [beq_iff_eq] at h
  exact ⟨s.take (s.length - p.length), by
    conv_lhs => rw [← List.take_append_drop (s.length - p.length) s]
    rw [h]⟩

/-- A string whose last character is a closing brace does not end with the
EMPTY keyword. -/
theorem endsWith_tEmpty_of_last {s : List Char}
    (hl : s.getLast? = some ')') : endsWith s tEmpty = false := by
  cases hE : endsWith s tEmpty
  · rfl
  · exfalso
    obtain ⟨q, rfl⟩ := endsWith_eq_append hE
    rw [List.getLast?_append] at hl
    rw [show (tEmpty.getLast?) = some 'Y' from rfl] at hl
    simp at hl

/-- The scan of a brace-free head, an opening brace, brace-balanced body text
and a final closing brace balances exactly at that final closing brace. -/
theorem firstBalanced_split {pre inner : List Char}
    (hpre : ∀ c ∈ pre, c ≠ '(' ∧ c ≠ ')')
    (hbal : countOpen inner = countClose inner)
    (hpref : ∀ nn : Nat,
      countClose (inner.take nn) ≤ countOpen (inner.take nn)) :
    firstBalanced (pre ++ '(' :: (inner ++ [')']))
      = some (pre.length + 1 + inner.length) := by
  have hcop : countOpen pre = 0 :=
    List.countP_eq_zero.mpr (fun c hc => by simp [(hpre c hc).1])
  have hccp : countClose pre = 0 :=
    List.countP_eq_zero.mpr (fun c hc => by simp [(hpre c hc).2])
  have hslen : (pre ++ '(' :: (inner ++ [')'])).length
      = pre.length + 1 + inner.length + 1 := by
    simp
    omega
  apply firstBalanced_intro
  · have hsplit : pre ++ '(' :: (inner ++ [')'])
        = (pre ++ '(' :: inner) ++ [')'] := by simp
    have hget : (pre ++ '(' :: (inner ++ [')']))[pre.length + 1
        + inner.length]? = some ')' := by
      rw [hsplit, List.getElem?_append_right (by simp; omega)]
      rw [show pre.length + 1 + inner.length - (pre ++ '(' :: inner).length
          = 0 from by simp; omega]
      rfl
    have htake : (pre ++ '(' :: (inner ++ [')'])).take
        (pre.length + 1 + inner.length + 1)
        = pre ++ '(' :: (inner ++ [')']) :=
      List.take_of_length_le (by omega)
    have hcount : countClose (pre ++ '(' :: (inner ++ [')']))
        = countOpen (pre ++ '(' :: (inner ++ [')'])) := by
      rw [countClose_append, countOpen_append, countClose_cons,
        countOpen_cons, countClose_append, countOpen_append]
      have e1 : countClose [')'] = 1 := rfl
      have e2 : countOpen [')'] = 0 := rfl
      rw [if_neg (by decide), if_pos rfl]
      omega
    unfold balancedAt
    rw [hget, htake, hcount]
    simp
  · intro m hm
    rcases Nat.lt_or_ge m pre.length with hm1 | hm1
    · have hgm : (pre ++ '(' :: (inner ++ [')']))[m]? = pre[m]? := by
        rw [List.getElem?_append, if_pos hm1]
      have hne : pre[m]? ≠ some ')' := by
        rw [List.getElem?_eq_getElem hm1]
        intro hcontra
        simp only [Option.some.injEq] at hcontra
        exact (hpre _ (List.getElem_mem hm1)).2 hcontra
      unfold balancedAt
      rw [hgm, beq_eq_false_iff_ne.mpr hne]
      simp
    · rcases Nat.eq_or_lt_of_le hm1 with heq | hm2
      · have hgm : (pre ++ '(' :: (inner ++ [')']))[m]? = some '(' := by
          rw [← heq, List.getElem?_append_right (le_refl _)]
          simp
        unfold balancedAt
        rw [hgm]
        simp
      · have hk : m - (pre.length + 1) < inner.length := by omega
        have hsplit2 : pre ++ '(' :: (inner ++ [')'])
            = (pre ++ ['(']) ++ (inner ++ [')']) := by simp
        have hgm : (pre ++ '(' :: (inner ++ [')']))[m]?
            = inner[m - (pre.length + 1)]? := by
          rw [hsplit2, List.getElem?_append_right (by simp; omega)]
          rw [List.getElem?_append]
          rw [show m - (pre ++ ['(']).length = m - (pre.length + 1) from by
            simp]
          rw [if_pos hk]
        by_cases hc : inner[m - (pre.length + 1)]? = some ')'
        · have htk : (pre ++ '(' :: (inner ++ [')'])).take (m + 1)
              = (pre ++ ['(']) ++ inner.take (m - pre.length) := by
            rw [hsplit2, List.take_append_eq_append_take]
            rw [List.take_of_length_le (by simp; omega)]
            congr 1
            rw [List.take_append_eq_append_take]
            rw [show m + 1 - (pre ++ ['(']).length = m - pre.length from by
              simp only [List.length_append, List.length_cons,
                List.length_nil]
              omega]
            rw [show m - pre.length - inner.length = 0 from by omega]
            simp
          have hco : countOpen ((pre ++ ['(']) ++ inner.take (m - pre.length))
              = 1 + countOpen (inner.take (m - pre.length)) := by
            rw [countOpen_append, countOpen_append, hcop]
            have e1 : countOpen ['('] = 1 := rfl
            omega
          have hcc : countClose
              ((pre ++ ['(']) ++ inner.take (m - pre.length))
              = countClose (inner.take (m - pre.length)) := by
            rw [countClose_append, countClose_append, hccp]
            have e1 : countClose ['('] = 0 := rfl
            omega
          have hne : countClose
              ((pre ++ ['(']) ++ inner.take (m - pre.length))
              ≠ countOpen ((pre ++ ['(']) ++ inner.take (m - pre.length)) := by
            have := hpref (m - pre.length)
            omega
          unfold balancedAt
          rw [htk, beq_eq_false_iff_ne.mpr hne]
          simp
        · unfold balancedAt
          rw [hgm, beq_eq_false_iff_ne.mpr hc]
          simp

/-- The brace scan of head + body + anything: the content is the body and
the rest starts at the body's final closing brace. -/
theorem braceContentAndRest_split {pre inner u : List Char}
    (hpre : ∀ c ∈ pre, c ≠ '(' ∧ c ≠ ')')
    (hbal : countOpen inner = countClose inner)
    (hpref : ∀ nn : Nat,
      countClose (inner.take nn) ≤ countOpen (inner.take nn)) :
    braceContentAndRest ((pre ++ '(' :: (inner ++ [')'])) ++ u)
      = .ok (inner, ')' :: u) := by
  have hfo : firstOpen (pre ++ '(' :: (inner ++ [')'])) = some pre.length :=
    firstOpen_split (fun c hc => (hpre c hc).1)
  have hfo2 : firstOpen ((pre ++ '(' :: (inner ++ [')'])) ++ u)
      = some pre.length := firstOpen_append_of_some hfo u
  have hfb2 := firstBalanced_append_of_some (u := u)
    (firstBalanced_split hpre hbal hpref)
  rw [braceContentAndRest_eq, hfb2, hfo2]
  simp only []
  have hassoc : (pre ++ '(' :: (inner ++ [')'])) ++ u
      = (pre ++ ['(']) ++ (inner ++ (')' :: u)) := by simp
  have hcontent : ((((pre ++ '(' :: (inner ++ [')'])) ++ u)).drop
      (pre.length + 1)).take (pre.length + 1 + inner.length
        - (pre.length + 1)) = inner := by
    rw [hassoc]
    rw [show pre.length + 1 = (pre ++ ['(']).length from by simp]
    rw [List.drop_left]
    rw [show (pre ++ ['(']).length + inner.length - (pre ++ ['(']).length
        = inner.length from by omega]
    exact List.take_left inner _
  have hrest : ((pre ++ '(' :: (inner ++ [')'])) ++ u).drop
      (pre.length + 1 + inner.length) = ')' :: u := by
    rw [show (pre ++ '(' :: (inner ++ [')'])) ++ u
        = ((pre ++ ['(']) ++ inner) ++ (')' :: u) from by simp]
    rw [show pre.length + 1 + inner.length
        = ((pre ++ ['(']) ++ inner).length from by simp; omega]
    exact List.drop_left _ _
  rw [hcontent, hrest]

/-- The advance-to-opening-brace variant of the previous computation: the
rest advances to empty when the trailing text holds no opening brace. -/
theorem braceContentAndRestStartingWithOpeningBrace_split
    {pre inner u : List Char}
    (hpre : ∀ c ∈ pre, c ≠ '(' ∧ c ≠ ')')
    (hbal : countOpen inner = countClose inner)
    (hpref : ∀ nn : Nat,
      countClose (inner.take nn) ≤ countOpen (inner.take nn))
    (hu : ∀ c ∈ u, c ≠ '(') :
    braceContentAndRestStartingWithOpeningBrace
      ((pre ++ '(' :: (inner ++ [')'])) ++ u) = .ok (inner, []) := by
  unfold braceContentAndRestStartingWithOpeningBrace
  rw [braceContentAndRest_split hpre hbal hpref]
  simp only []
  rw [show List.findIdx? (fun x => x == '(') (')' :: u) = none from
    List.findIdx?_eq_none_iff.mpr (by
      intro x hx
      rcases List.mem_cons.mp hx with rfl | hxu
      · rfl
      · exact beq_eq_false_iff_ne.mpr (hu x hxu))]

/-- C10: for an input made of a recognised keyword head, a balanced
parenthesised body and arbitrary trailing text that contains no further
opening brace and leaves the input not ending in EMPTY, decode ignores the
trailing text: the result equals decoding the input without it; concretely
decode("POINT(1 2)garbage") succeeds with Point [1,2]. -/
theorem wkt_c10 :
    (∀ (pre inner tail t : List Char) (l : Layout),
      (∀ c ∈ pre, c ≠ '(' ∧ c ≠ ')') →
      countOpen inner = countClose inner →
      (∀ nn, nn < inner.length →
        countClose (inner.take nn) ≤ countOpen (inner.take nn)) →
      findTypeAndLayout (pre ++ '(' :: (inner ++ [')'])) = .ok (t, l) →
      (∀ c ∈ tail, c ≠ '(') →
      endsWith ((pre ++ '(' :: (inner ++ [')'])) ++ tail) tEmpty = false →
      decode ((pre ++ '(' :: (inner ++ [')'])) ++ tail)
        = decode (pre ++ '(' :: (inner ++ [')'])))
    ∧ decode (strData "POINT(1 2)garbage")
      = .ok (.point .XY (some [1, 2])) := by
  constructor
  · intro pre inner tail t l hpre hbal hprefB hf htail hE
    have hprefF : ∀ nn : Nat,
        countClose (inner.take nn) ≤ countOpen (inner.take nn) := by
      intro nn
      rcases Nat.lt_or_ge nn inner.length with h | h
      · exact hprefB nn h
      · rw [List.take_of_length_le (by omega)]
        omega
    have hw0mem : '(' ∈ pre ++ '(' :: (inner ++ [')']) := by simp
    have hfA : findTypeAndLayout ((pre ++ '(' :: (inner ++ [')'])) ++ tail)
        = .ok (t, l) := findTypeAndLayout_append hw0mem hf
    have hE0 : endsWith (pre ++ '(' :: (inner ++ [')'])) tEmpty = false := by
      apply endsWith_tEmpty_of_last
      rw [show pre ++ '(' :: (inner ++ [')'])
          = (pre ++ '(' :: inner) ++ [')'] from by simp]
      exact List.getLast?_concat _
    have hB0 : braceContentAndRest (pre ++ '(' :: (inner ++ [')']))
        = .ok (inner, [')']) := by
      have h := braceContentAndRest_split (u := []) hpre hbal hprefF
      simpa using h
    have hBW : braceContentAndRest ((pre ++ '(' :: (inner ++ [')'])) ++ tail)
        = .ok (inner, ')' :: tail) :=
      braceContentAndRest_split hpre hbal hprefF
    have hS0 : braceContentAndRestStartingWithOpeningBrace
        (pre ++ '(' :: (inner ++ [')'])) = .ok (inner, []) := by
      have h := braceContentAndRestStartingWithOpeningBrace_split (u := [])
        hpre hbal hprefF (by simp)
      simpa using h
    have hSW : braceContentAndRestStartingWithOpeningBrace
        ((pre ++ '(' :: (inner ++ [')'])) ++ tail) = .ok (inner, []) :=
      braceContentAndRestStartingWithOpeningBrace_split hpre hbal hprefF
        htail
    have hD1 : ∀ l' : Layout,
        readCoordsDim1 l' ((pre ++ '(' :: (inner ++ [')'])) ++ tail)
          = readCoordsDim1 l' (pre ++ '(' :: (inner ++ [')'])) := by
      intro l'
      unfold readCoordsDim1
      rw [hE, hE0, hSW, hS0]
    have hD2 : ∀ l' : Layout,
        readCoordsDim2 l' ((pre ++ '(' :: (inner ++ [')'])) ++ tail)
          = readCoordsDim2 l' (pre ++ '(' :: (inner ++ [')'])) := by
      intro l'
      unfold readCoordsDim2
      rw [hE, hE0, hSW, hS0]
    have hD3 : ∀ l' : Layout,
        readCoordsDim3 l' ((pre ++ '(' :: (inner ++ [')'])) ++ tail)
          = readCoordsDim3 l' (pre ++ '(' :: (inner ++ [')'])) := by
      intro l'
      unfold readCoordsDim3
      rw [hE, hE0, hSW, hS0]
    have hmem := (findTypeAndLayout_ok hf).1
    simp only [keywordList, List.mem_cons, List.not_mem_nil,
      or_false] at hmem
    rcases hmem with rfl | rfl | rfl | rfl | rfl | rfl | rfl
    · rw [decode_point hfA, decode_point hf, hD1 l]
    · rw [decode_lineString hfA, decode_lineString hf, hD1 l]
    · rw [decode_polygon hfA, decode_polygon hf, hD2 l]
    · rw [decode_multiPoint hfA, decode_multiPoint hf, hD1 l]
    · rw [decode_multiLineString hfA, decode_multiLineString hf, hD2 l]
    · rw [decode_multiPolygon hfA, decode_multiPolygon hf, hD3 l]
    · have hsw2 := (findTypeAndLayout_ok hf).2.1
      have hsw1 := (findTypeAndLayout_ok hfA).2.1
      rw [decode_gc hfA hsw1, decode_gc hf hsw2]
      rw [createGeomCollectionForWkt_eq, createGeomCollectionForWkt_eq]
      rw [hE, hE0, hBW, hB0]
  · rw [decode.eq_def]
    rfl

/-- C10 witness: the trailing-text equation at POINT(1 2)garbage. -/
theorem wkt_c10_witness :
    decode ((strData "POINT" ++ '(' :: (strData "1 2" ++ [')']))
        ++ strData "garbage")
      = decode (strData "POINT" ++ '(' :: (strData "1 2" ++ [')'])) :=
  wkt_c10.1 (strData "POINT") (strData "1 2") (strData "garbage")
    tPoint Layout.XY (by decide) (by decide) (by decide) (by decide)
    (by decide) (by decide)

end Wkt
